import Mathlib

set_option maxHeartbeats 1000000
set_option maxRecDepth 10000

/-! Shallow embedding of the smart-url-crawler repository (crawler.py and
    db_manager.py): URL classification, the Snapshot/Link data model, the
    per-URL fetch pipeline with its session commit/rollback discipline, the
    concurrent claim protocol, and concurrent URL registration.  Pure Python
    expressions become Lean functions; the database session becomes an explicit
    state (committed rows plus a pending write list); fallible collaborator
    calls (Playwright, the network, the uniqueness constraint) become `Except`
    values supplied by an environment record. -/

/-- The `urls.status` enum (db_manager.py, `url_status`). -/
inductive UStatus
  | pending
  | in_progress
  | done
  | error
deriving DecidableEq, Repr

/-- The crawl mode enum (db_manager.py, `crawl_mode`). -/
inductive CMode
  | desktop
  | mobile
  | bot
deriving DecidableEq, Repr

/-- Category of a URL relative to the seed (crawler.py lines 81 and 133). -/
inductive Category
  | internal
  | external
deriving DecidableEq, Repr

/-- Characters allowed after the first character of a URL scheme
    (Python `urllib.parse` scheme characters: letters, digits, `+`, `-`, `.`). -/
def schemeTailChar (c : Char) : Bool :=
  c.isAlphanum || c == '+' || c == '-' || c == '.'

/-- Model of Python `urlparse`'s scheme split: when the text before the first
    colon is nonempty, starts with a letter and consists of scheme characters,
    it is the scheme (lowercased) and the remainder follows the colon;
    otherwise the URL has no scheme and is left whole. -/
def splitScheme (u : String) : String × String :=
  let cs := u.toList
  let pre := cs.takeWhile (fun c => !(c == ':'))
  if pre.length = 0 ∨ pre.length = cs.length then ("", u)
  else
    match pre with
    | [] => ("", u)
    | c0 :: rest =>
      if c0.isAlpha && rest.all schemeTailChar then
        (String.mk ((c0 :: rest).map Char.toLower), String.mk (cs.drop (pre.length + 1)))
      else ("", u)

/-- `urlparse(u).scheme` (used by crawler.py line 130). -/
def urlScheme (u : String) : String := (splitScheme u).1

/-- `urlparse(u).netloc`: after the scheme, a leading `//` introduces the
    authority component, which extends to the next `/`, `?` or `#`
    (used by crawler.py lines 80-81, 129, 133). -/
def urlNetloc (u : String) : String :=
  match (splitScheme u).2.toList with
  | '/' :: '/' :: rest =>
      String.mk (rest.takeWhile (fun c => !(c == '/' || c == '?' || c == '#')))
  | _ => ""

/-- crawler.py line 81: `'internal' if parsed.netloc == base_host else 'external'`. -/
def classify (u : String) (baseHost : String) : Category :=
  if urlNetloc u = baseHost then .internal else .external

/-! ### SHA-256 and UTF-8 (crawler.py line 144:
    `hashlib.sha256(content.encode()).hexdigest()`).  `str.encode()` is UTF-8
    and `hashlib.sha256` is FIPS 180-4 SHA-256; both are embedded directly,
    over byte lists, with 32-bit words as `Nat` modulo `2 ^ 32`. -/

/-- UTF-8 encoding of one character (`str.encode()`), as byte values. -/
def charUtf8 (c : Char) : List Nat :=
  let n := c.toNat
  if n < 128 then [n]
  else if n < 2048 then [192 + n / 64, 128 + n % 64]
  else if n < 65536 then [224 + n / 4096, 128 + n / 64 % 64, 128 + n % 64]
  else [240 + n / 262144, 128 + n / 4096 % 64, 128 + n / 64 % 64, 128 + n % 64]

/-- UTF-8 encoding of a string (`content.encode()` in crawler.py line 144). -/
def utf8Bytes (s : String) : List Nat :=
  s.toList.foldr (fun c acc => charUtf8 c ++ acc) []

/-- Truncation to a 32-bit word. -/
def w32 (x : Nat) : Nat := x % 4294967296

/-- 32-bit right rotation by `n`. -/
def rotr32 (n x : Nat) : Nat := w32 x / 2 ^ n + w32 x % 2 ^ n * 2 ^ (32 - n)

/-- 32-bit bitwise complement. -/
def notW (x : Nat) : Nat := 4294967295 - w32 x

/-- SHA-256 choice function. -/
def shaCh (e f g : Nat) : Nat := (e &&& f) ^^^ (notW e &&& g)

/-- SHA-256 majority function. -/
def shaMaj (a b c : Nat) : Nat := (a &&& b) ^^^ (a &&& c) ^^^ (b &&& c)

/-- SHA-256 big sigma 0. -/
def bigSigma0 (x : Nat) : Nat := rotr32 2 x ^^^ rotr32 13 x ^^^ rotr32 22 x

/-- SHA-256 big sigma 1. -/
def bigSigma1 (x : Nat) : Nat := rotr32 6 x ^^^ rotr32 11 x ^^^ rotr32 25 x

/-- SHA-256 small sigma 0. -/
def smallSigma0 (x : Nat) : Nat := rotr32 7 x ^^^ rotr32 18 x ^^^ w32 x / 2 ^ 3

/-- SHA-256 small sigma 1. -/
def smallSigma1 (x : Nat) : Nat := rotr32 17 x ^^^ rotr32 19 x ^^^ w32 x / 2 ^ 10

/-- The eight 32-bit hash words. -/
structure Hash8 where
  h0 : Nat
  h1 : Nat
  h2 : Nat
  h3 : Nat
  h4 : Nat
  h5 : Nat
  h6 : Nat
  h7 : Nat
deriving Repr

/-- SHA-256 initial hash value (the FIPS 180-4 words, written in decimal). -/
def shaH0 : Hash8 :=
  ⟨1779033703, 3144134277, 1013904242, 2773480762,
   1359893119, 2600822924, 528734635, 1541459225⟩

/-- SHA-256 round constants (the 64 FIPS 180-4 words, written in decimal). -/
def shaK : List Nat :=
  [1116352408, 1899447441, 3049323471, 3921009573, 961987163,
   1508970993, 2453635748, 2870763221, 3624381080, 310598401,
   607225278, 1426881987, 1925078388, 2162078206, 2614888103,
   3248222580, 3835390401, 4022224774, 264347078, 604807628,
   770255983, 1249150122, 1555081692, 1996064986, 2554220882,
   2821834349, 2952996808, 3210313671, 3336571891, 3584528711,
   113926993, 338241895, 666307205, 773529912, 1294757372,
   1396182291, 1695183700, 1986661051, 2177026350, 2456956037,
   2730485921, 2820302411, 3259730800, 3345764771, 3516065817,
   3600352804, 4094571909, 275423344, 430227734, 506948616,
   659060556, 883997877, 958139571, 1322822218, 1537002063,
   1747873779, 1955562222, 2024104815, 2227730452, 2361852424,
   2428436474, 2756734187, 3204031479, 3329325298]

/-- Big-endian 32-bit word from four bytes. -/
def be32 (a b c d : Nat) : Nat := ((a * 256 + b) * 256 + c) * 256 + d

/-- The sixteen message words of one 64-byte chunk. -/
def words16 : List Nat → List Nat
  | a :: b :: c :: d :: rest => be32 a b c d :: words16 rest
  | _ => []

/-- Extension of the sixteen message words to the 64-entry schedule. -/
def sched64 (ws : List Nat) : List Nat :=
  (List.range 48).foldl
    (fun acc j =>
      acc ++ [w32 (smallSigma1 (acc.getD (j + 14) 0) + acc.getD (j + 9) 0 +
                   smallSigma0 (acc.getD (j + 1) 0) + acc.getD j 0)])
    ws

/-- The eight working registers of the compression loop. -/
structure Regs where
  ra : Nat
  rb : Nat
  rc : Nat
  rd : Nat
  re : Nat
  rf : Nat
  rg : Nat
  rh : Nat

/-- One SHA-256 round. -/
def shaRound (r : Regs) (w k : Nat) : Regs :=
  let t1 := w32 (r.rh + bigSigma1 r.re + shaCh r.re r.rf r.rg + k + w)
  let t2 := w32 (bigSigma0 r.ra + shaMaj r.ra r.rb r.rc)
  { ra := w32 (t1 + t2), rb := r.ra, rc := r.rb, rd := r.rc,
    re := w32 (r.rd + t1), rf := r.re, rg := r.rf, rh := r.rg }

/-- SHA-256 compression of one 64-byte chunk. -/
def shaCompress (st : Hash8) (chunk : List Nat) : Hash8 :=
  let ws := sched64 (words16 chunk)
  let r := (ws.zip shaK).foldl (fun r p => shaRound r p.1 p.2)
    ⟨st.h0, st.h1, st.h2, st.h3, st.h4, st.h5, st.h6, st.h7⟩
  ⟨w32 (st.h0 + r.ra), w32 (st.h1 + r.rb), w32 (st.h2 + r.rc), w32 (st.h3 + r.rd),
   w32 (st.h4 + r.re), w32 (st.h5 + r.rf), w32 (st.h6 + r.rg), w32 (st.h7 + r.rh)⟩

/-- Big-endian 64-bit length field of the padding. -/
def be64 (n : Nat) : List Nat :=
  [n / 2 ^ 56 % 256, n / 2 ^ 48 % 256, n / 2 ^ 40 % 256, n / 2 ^ 32 % 256,
   n / 2 ^ 24 % 256, n / 2 ^ 16 % 256, n / 2 ^ 8 % 256, n % 256]

/-- SHA-256 padding: the `0x80` byte, zeros to 56 modulo 64, then the
    bit length. -/
def padBytes (msg : List Nat) : List Nat :=
  msg ++ [128] ++ List.replicate ((119 - msg.length % 64) % 64) 0 ++
    be64 (8 * msg.length)

/-- Split a byte list into 64-byte chunks (structural recursion on a fuel
    bound so the kernel can evaluate it). -/
def chunks64Go : Nat → List Nat → List (List Nat)
  | 0, _ => []
  | _, [] => []
  | fuel + 1, l => l.take 64 :: chunks64Go fuel (l.drop 64)

/-- Split a byte list into 64-byte chunks. -/
def chunks64 (l : List Nat) : List (List Nat) := chunks64Go l.length l

/-- The SHA-256 hash words of a byte list. -/
def sha256Words (msg : List Nat) : Hash8 :=
  (chunks64 (padBytes msg)).foldl shaCompress shaH0

/-- The lowercase hexadecimal alphabet. -/
def hexDigits : List Char := "0123456789abcdef".toList

/-- One lowercase hexadecimal digit. -/
def hexDigitChar (n : Nat) : Char := hexDigits.getD (n % 16) '0'

/-- A 32-bit word as eight hexadecimal characters, big-endian. -/
def word2hex (w : Nat) : List Char :=
  [hexDigitChar (w / 16 ^ 7), hexDigitChar (w / 16 ^ 6), hexDigitChar (w / 16 ^ 5),
   hexDigitChar (w / 16 ^ 4), hexDigitChar (w / 16 ^ 3), hexDigitChar (w / 16 ^ 2),
   hexDigitChar (w / 16), hexDigitChar w]

/-- `hashlib.sha256(msg).hexdigest()`: the digest as lowercase hex. -/
def sha256hex (msg : List Nat) : String :=
  String.mk
    (word2hex (sha256Words msg).h0 ++ (word2hex (sha256Words msg).h1 ++
      (word2hex (sha256Words msg).h2 ++ (word2hex (sha256Words msg).h3 ++
        (word2hex (sha256Words msg).h4 ++ (word2hex (sha256Words msg).h5 ++
          (word2hex (sha256Words msg).h6 ++ word2hex (sha256Words msg).h7)))))))

/-! ### Data model and session discipline (db_manager.py models; SQLAlchemy
    session as committed rows plus a pending write list; `commit` applies the
    pending writes, `rollback` discards them).  Creation timestamps and
    `last_attempt` stamps carry no claim content in the pipeline models and
    are omitted there; `last_attempt` appears in the claim-protocol model. -/

/-- A `urls` row (db_manager.py class URL). -/
structure UrlRow where
  id : Nat
  url : String
  category : Category
  status : UStatus
deriving DecidableEq, Repr

/-- A `snapshots` row (db_manager.py class Snapshot), nullable columns as
    `Option`. -/
structure SnapRow where
  url_id : Nat
  run_id : Nat
  mode : CMode
  status_code : Option Int
  content_hash : Option String
  content : Option String
  error_message : Option String
  ttfb_ms : Option Int
  dom_content_loaded_ms : Option Int
  load_event_end_ms : Option Int
deriving DecidableEq, Repr

/-- A `links` row (db_manager.py class Link). -/
structure LinkRow where
  source_id : Nat
  target_id : Nat
  snapshot_id : Nat
deriving DecidableEq, Repr

/-- The committed database state: snapshot rows carry their assigned id. -/
structure DBState where
  urls : List UrlRow
  snaps : List (Nat × SnapRow)
  links : List LinkRow
deriving Repr

/-- One staged write: `session.add(...)` of a row, or a status attribute
    change on a loaded URL row. -/
inductive WriteOp
  | addUrl (r : UrlRow)
  | addSnap (id : Nat) (s : SnapRow)
  | addLink (l : LinkRow)
  | setStatus (urlId : Nat) (st : UStatus)
deriving Repr

/-- Apply one staged write to the committed state. -/
def DBState.apply1 : DBState → WriteOp → DBState
  | db, .addUrl r => { db with urls := db.urls ++ [r] }
  | db, .addSnap i sn => { db with snaps := db.snaps ++ [(i, sn)] }
  | db, .addLink l => { db with links := db.links ++ [l] }
  | db, .setStatus uid st =>
      { db with urls := db.urls.map (fun r => if r.id == uid then { r with status := st } else r) }

/-- Apply a list of staged writes in order. -/
def DBState.applyOps (db : DBState) (ops : List WriteOp) : DBState :=
  ops.foldl DBState.apply1 db

/-- The status of the URL row with id `uid`, when present. -/
def DBState.statusOf (db : DBState) (uid : Nat) : Option UStatus :=
  (db.urls.find? (fun r => r.id == uid)).map UrlRow.status

/-- A SQLAlchemy session: committed state, staged writes, id sequences
    (sequences do not roll back) and the count of pages opened through it. -/
structure Session where
  committed : DBState
  pending : List WriteOp
  nextUrlId : Nat
  nextSnapId : Nat
  pagesOpened : Nat
deriving Repr

/-- `await session.commit()`. -/
def Session.commit (s : Session) : Session :=
  { s with committed := s.committed.applyOps s.pending, pending := [] }

/-- `await session.rollback()`: discard the staged writes. -/
def Session.rollback (s : Session) : Session := { s with pending := [] }

/-- `session.add(...)` / a staged attribute change. -/
def Session.add (s : Session) (op : WriteOp) : Session :=
  { s with pending := s.pending ++ [op] }

/-- The status-only request issued by the external path
    (crawler.py line 90: `context.request.get(url, timeout=30000)`). -/
structure HttpReq where
  url : String
  statusOnly : Bool
  timeoutMs : Nat
deriving DecidableEq, Repr

/-- The external path's Snapshot (crawler.py lines 89-103): the status-only
    request's outcome is injected as `reqRes`; `status_code` is set on
    success, `error_message` on exception, everything else stays empty. -/
def mkExtSnap (cur : UrlRow) (runId : Nat) (mode : CMode)
    (reqRes : Except String Int) : SnapRow :=
  let sc : Option Int := match reqRes with | .ok st => some st | .error _ => none
  let em : Option String := match reqRes with | .ok _ => none | .error e => some e
  { url_id := cur.id, run_id := runId, mode := mode, status_code := sc,
    content_hash := none, content := none, error_message := em,
    ttfb_ms := none, dom_content_loaded_ms := none, load_event_end_ms := none }

/-- crawler.py lines 89-106: the external path writes its one Snapshot and the
    `done` status in a single commit, then bumps the id sequence past the
    snapshot id it consumed. -/
def externalPath (reqRes : Except String Int) (cur : UrlRow) (runId : Nat)
    (mode : CMode) (s : Session) : Session × HttpReq :=
  let snap := mkExtSnap cur runId mode reqRes
  let s1 := ((s.add (.addSnap s.nextSnapId snap)).add (.setStatus cur.id .done)).commit
  ({ s1 with nextSnapId := s.nextSnapId + 1 },
   { url := cur.url, statusOnly := true, timeoutMs := 30000 })

/-- `window.performance.timing` fields the pipeline reads (crawler.py lines
    117-122); an absent key makes `perf.get(key, 0)` return 0. -/
structure PerfT where
  navigationStart : Option Int
  responseStart : Option Int
  domContentLoadedEventEnd : Option Int
  loadEventEnd : Option Int
deriving DecidableEq, Repr

/-- Collaborator outcomes for one internal-path attempt: each Playwright call
    either returns a value or raises (its failure text), and `insertRes`
    is the uniqueness constraint's verdict when committing a new URL row
    (a concurrently committed duplicate makes it fail). -/
structure Env where
  gotoRes : Except String (Option Int)
  settleRes : Except String Unit
  perfRes : Except String PerfT
  hrefsRes : Except String (List String)
  contentRes : Except String String
  insertRes : String → Except String Unit
deriving Inhabited

/-- The committed insert of one newly discovered URL (crawler.py lines
    133-136): a new pending row, classified immediately, committed at once. -/
def insertNew (baseHost : String) (href : String) (s : Session) : Session :=
  let cat := if urlNetloc href == baseHost then Category.internal else Category.external
  let nu : UrlRow := { id := s.nextUrlId, url := href, category := cat, status := .pending }
  { s.add (.addUrl nu) with nextUrlId := s.nextUrlId + 1 }.commit

/-- One iteration of the link-discovery loop, crawler.py lines 127-139:
    skip the current URL, keep http/https targets, resolve an existing row
    or insert (and immediately commit) a new pending row, then stage the
    edge endpoints. -/
def registerOne (env : Env) (baseHost : String) (cur : UrlRow)
    (acc : List (Nat × Nat) × Session) (href : String) :
    Except (String × Session) (List (Nat × Nat) × Session) :=
  let (links, s) := acc
  if href == cur.url then .ok (links, s)
  else if urlScheme href == "http" || urlScheme href == "https" then
    match s.committed.urls.find? (fun r => r.url == href) with
    | some target => .ok (links ++ [(cur.id, target.id)], s)
    | none =>
      match env.insertRes href with
      | .error e => .error (e, s)
      | .ok _ => .ok (links ++ [(cur.id, s.nextUrlId)], insertNew baseHost href s)
  else .ok (links, s)

/-- The whole link-discovery loop over the deduplicated href list. -/
def registerLoop (env : Env) (baseHost : String) (cur : UrlRow)
    (hrefs : List String) (s : Session) :
    Except (String × Session) (List (Nat × Nat) × Session) :=
  hrefs.foldlM (registerOne env baseHost cur) ([], s)

/-- The success Snapshot of the internal path (crawler.py lines 145-156):
    navigation status, SHA-256 fingerprint and serialized content, timing
    metrics relative to `navigationStart` with absent fields read as 0. -/
def mkSuccessSnap (cur : UrlRow) (runId : Nat) (mode : CMode)
    (respStatus : Option Int) (perf : PerfT) (content : String) : SnapRow :=
  let nav := perf.navigationStart.getD 0
  { url_id := cur.id, run_id := runId, mode := mode,
    status_code := respStatus,
    content_hash := some (sha256hex (utf8Bytes content)),
    content := some content,
    error_message := none,
    ttfb_ms := some (perf.responseStart.getD 0 - nav),
    dom_content_loaded_ms := some (perf.domContentLoadedEventEnd.getD 0 - nav),
    load_event_end_ms := some (perf.loadEventEnd.getD 0 - nav) }

/-- The error Snapshot of the internal path (crawler.py lines 168-175):
    only the failure text is populated. -/
def mkErrorSnap (cur : UrlRow) (runId : Nat) (mode : CMode) (msg : String) : SnapRow :=
  { url_id := cur.id, run_id := runId, mode := mode,
    status_code := none, content_hash := none, content := none,
    error_message := some msg,
    ttfb_ms := none, dom_content_loaded_ms := none, load_event_end_ms := none }

/-- The single success commit of the internal path (crawler.py lines 145-164):
    stage the success Snapshot, flush to obtain its id, stage one edge per
    discovered link against that id and the `done` status, and commit all of
    it together. -/
def successCommit (cur : UrlRow) (runId : Nat) (mode : CMode)
    (respStatus : Option Int) (perf : PerfT) (content : String)
    (newLinks : List (Nat × Nat)) (s1 : Session) : Session :=
  let snap := mkSuccessSnap cur runId mode respStatus perf content
  let sid := s1.nextSnapId
  let s2 := { s1.add (.addSnap sid snap) with nextSnapId := sid + 1 }
  let s3 := newLinks.foldl
    (fun acc e => acc.add (.addLink { source_id := e.1, target_id := e.2, snapshot_id := sid })) s2
  (s3.add (.setStatus cur.id .done)).commit

/-- The exception handler's commit (crawler.py lines 166-178): after the
    rollback, stage the error Snapshot and the `error` status and commit. -/
def errorCommit (cur : UrlRow) (runId : Nat) (mode : CMode) (msg : String)
    (sR : Session) : Session :=
  (({ sR.add (.addSnap sR.nextSnapId (mkErrorSnap cur runId mode msg)) with
      nextSnapId := sR.nextSnapId + 1 }).add (.setStatus cur.id .error)).commit

/-- The `try:` body of the internal path (crawler.py lines 112-164): navigate
    (a null response leaves `status_code` empty), settle, read timings,
    discover and register links, then stage the success Snapshot, its edges
    and the `done` status and commit them together.  An exception anywhere
    escapes with the session as it stood. -/
def tryBlock (env : Env) (baseHost : String) (cur : UrlRow) (runId : Nat)
    (mode : CMode) (s : Session) : Except (String × Session) Session :=
  match env.gotoRes with
  | .error e => .error (e, s)
  | .ok respStatus =>
  match env.settleRes with
  | .error e => .error (e, s)
  | .ok _ =>
  match env.perfRes with
  | .error e => .error (e, s)
  | .ok perf =>
  match env.hrefsRes with
  | .error e => .error (e, s)
  | .ok hrefs =>
  match registerLoop env baseHost cur hrefs.dedup s with
  | .error es => .error es
  | .ok (newLinks, s1) =>
  match env.contentRes with
  | .error e => .error (e, s1)
  | .ok content => .ok (successCommit cur runId mode respStatus perf content newLinks s1)

/-- The internal path with its handler (crawler.py lines 110-181): open a
    page, run the `try:` body; on an exception roll back the staged writes,
    write the single error Snapshot, mark the URL `error`, and commit. -/
def internalPath (env : Env) (baseHost : String) (cur : UrlRow) (runId : Nat)
    (mode : CMode) (s : Session) : Session :=
  let sOpen := { s with pagesOpened := s.pagesOpened + 1 }
  match tryBlock env baseHost cur runId mode sOpen with
  | .ok s1 => s1
  | .error (e, sF) => errorCommit cur runId mode e sF.rollback

/-- The spec's Snapshot invariant: exactly one of "status_code set with no
    error_message" and "error_message set" — never both empty, never both
    populated. -/
def snapOk (sn : SnapRow) : Bool :=
  (sn.status_code.isSome && sn.error_message.isNone) ||
  (sn.error_message.isSome && sn.status_code.isNone)

/-! ### Helper lemmas about the session discipline. -/

/-- The snapshot rows contained in a staged write list. -/
def opsSnaps (ops : List WriteOp) : List (Nat × SnapRow) :=
  ops.filterMap (fun op => match op with | .addSnap i sn => some (i, sn) | _ => none)

/-- The link rows contained in a staged write list. -/
def opsLinks (ops : List WriteOp) : List LinkRow :=
  ops.filterMap (fun op => match op with | .addLink l => some l | _ => none)

/-- What link registration may do to the session: commit new URL rows at the
    end of the table, leaving snapshots, links, staged writes, the snapshot id
    sequence and the page count untouched. -/
def RegExtends (s s' : Session) : Prop :=
  s'.pending = [] ∧
  s'.committed.snaps = s.committed.snaps ∧
  s'.committed.links = s.committed.links ∧
  s'.nextSnapId = s.nextSnapId ∧
  s'.pagesOpened = s.pagesOpened ∧
  ∃ ext, s'.committed.urls = s.committed.urls ++ ext

/-- The href filter applied inside the discovery loop (crawler.py lines
    128-130): not the current URL, and an http or https scheme. -/
def keepP (curUrl href : String) : Bool :=
  !(href == curUrl) && (urlScheme href == "http" || urlScheme href == "https")

/-! ### Concrete fixtures used by counterexamples and witnesses. -/

/-- A claimed internal URL row, as the worker holds it after the claim step. -/
def cCur : UrlRow :=
  { id := 0, url := "http://a.test/", category := .internal, status := .in_progress }

/-- A session holding only the claimed row, with nothing staged. -/
def cSession0 : Session :=
  { committed := { urls := [cCur], snaps := [], links := [] }, pending := [],
    nextUrlId := 1, nextSnapId := 0, pagesOpened := 0 }

/-- Performance timings with every field present and zero. -/
def cPerf0 : PerfT :=
  { navigationStart := some 0, responseStart := some 0,
    domContentLoadedEventEnd := some 0, loadEventEnd := some 0 }

/-- Timings for a page whose load event never fired before the read:
    `loadEventEnd` is 0 while `navigationStart` is a real epoch offset. -/
def cPerfNeg : PerfT :=
  { navigationStart := some 1000, responseStart := none,
    domContentLoadedEventEnd := some 0, loadEventEnd := some 0 }

/-- An internal attempt in which `page.goto` succeeds but returns no response
    object (`resp` is None), everything else succeeding with no links. -/
def cEnvNullResp : Env :=
  { gotoRes := .ok none, settleRes := .ok (), perfRes := .ok cPerf0,
    hrefsRes := .ok [], contentRes := .ok "", insertRes := fun _ => .ok () }

/-- An internal attempt whose navigation raises. -/
def cEnvFail : Env :=
  { gotoRes := .error "net::ERR_CONNECTION_REFUSED", settleRes := .ok (),
    perfRes := .ok cPerf0, hrefsRes := .ok [], contentRes := .ok "",
    insertRes := fun _ => .ok () }

/-! ### Worker-loop model (crawler.py lines 64-181, C5).  Each claimed URL is
    one task.  The external branch and the whole internal `try/except/finally`
    body handle their own failures, but `page = await context.new_page()` at
    line 111 runs before the `try:`, so an exception there propagates out of
    `worker` and ends that worker's loop. -/

/-- One claimed URL as the worker loop sees it: which branch it takes, the
    exception `context.new_page()` raises if any (internal branch only), and
    the failure text its handled body records (`none` = the attempt
    succeeded). -/
structure UrlTask where
  ext : Bool
  allocErr : Option String
  failMsg : Option String
deriving DecidableEq, Repr

/-- How a worker loop run ends. -/
inductive LoopEnd
  | finished
  | crashed (msg : String)
deriving DecidableEq, Repr

/-- The worker loop over the tasks it claims, in order: each processed task
    records its branch and its recorded failure, the loop continues past
    handled failures, and an exception outside the handlers kills the loop,
    leaving its remaining tasks unprocessed. -/
def workerLoop : List UrlTask → LoopEnd × List (Bool × Option String) × List UrlTask
  | [] => (.finished, [], [])
  | t :: ts =>
    if t.ext then
      let r := workerLoop ts
      (r.1, (true, t.failMsg) :: r.2.1, r.2.2)
    else
      match t.allocErr with
      | some e => (.crashed e, [], ts)
      | none =>
        let r := workerLoop ts
        (r.1, (false, t.failMsg) :: r.2.1, r.2.2)

/-! ### Concurrent duplicate registration (crawler.py lines 131-138, C3):
    two workers run the check-then-insert sequence for the same href against
    one shared committed table; the unique index `uq_urls_url`
    (db_manager.py line 50) is the commit-time arbiter that rejects a
    duplicate insert. -/

instance : DecidableEq (Except String Nat)
  | .error a, .error b =>
    if h : a = b then .isTrue (by rw [h]) else .isFalse (fun hc => h (Except.error.inj hc))
  | .error _, .ok _ => .isFalse (fun hc => Except.noConfusion hc)
  | .ok _, .error _ => .isFalse (fun hc => Except.noConfusion hc)
  | .ok a, .ok b =>
    if h : a = b then .isTrue (by rw [h]) else .isFalse (fun hc => h (Except.ok.inj hc))

/-- Where one worker stands in its register sequence: before the select of
    line 131, before resolving with the remembered select result, or done
    with either the obtained row id or a raised integrity error. -/
inductive RegPhase
  | toCheck
  | toInsert (found : Option Nat)
  | finished (r : Except String Nat)
deriving DecidableEq, Repr

/-- The shared table (id, url string) plus both workers' phases. -/
structure RegSt where
  urls : List (Nat × String)
  nextId : Nat
  pA : RegPhase
  pB : RegPhase
deriving DecidableEq, Repr

/-- The select of crawler.py line 131 against the committed table. -/
def regFind (urls : List (Nat × String)) (href : String) : Option Nat :=
  (urls.find? (fun r => r.2 == href)).map (fun r => r.1)

/-- One step of one worker's register sequence: the check (line 131), then
    either adopting the found id (line 138) or inserting-and-committing
    (lines 134-136) — which the unique index rejects with an integrity error
    when a row with the same string was committed in between. -/
def regStepOne (href : String) (urls : List (Nat × String)) (n : Nat) :
    RegPhase → RegPhase × List (Nat × String) × Nat
  | .toCheck => (.toInsert (regFind urls href), urls, n)
  | .toInsert (some i) => (.finished (.ok i), urls, n)
  | .toInsert none =>
    if urls.any (fun r => r.2 == href) then
      (.finished (.error "IntegrityError: duplicate entry"), urls, n)
    else
      (.finished (.ok n), urls ++ [(n, href)], n + 1)
  | .finished r => (.finished r, urls, n)

/-- One scheduler step: `true` advances worker A, `false` worker B. -/
def regStep (href : String) (st : RegSt) (w : Bool) : RegSt :=
  if w then
    let r := regStepOne href st.urls st.nextId st.pA
    { st with pA := r.1, urls := r.2.1, nextId := r.2.2 }
  else
    let r := regStepOne href st.urls st.nextId st.pB
    { st with pB := r.1, urls := r.2.1, nextId := r.2.2 }

/-- An interleaving of the two workers' register sequences. -/
def regRun (href : String) (st : RegSt) (sched : List Bool) : RegSt :=
  sched.foldl (regStep href) st

/-- Both workers at the start against an empty table. -/
def cRegSt0 : RegSt := { urls := [], nextId := 1, pA := .toCheck, pB := .toCheck }

/-- How many committed rows hold the string. -/
def regCount (urls : List (Nat × String)) (href : String) : Nat :=
  (urls.filter (fun r => r.2 == href)).length

/-- A worker's local phase never refers to a row the table does not hold. -/
def RegPhaseOk (href : String) (urls : List (Nat × String)) : RegPhase → Prop
  | .toInsert (some i) => (i, href) ∈ urls
  | .finished (.ok i) => (i, href) ∈ urls
  | _ => True

/-! ### The claim protocol (crawler.py lines 68-84, C2).  The worker's
    `SELECT … WHERE status='pending' ORDER BY id FOR UPDATE SKIP LOCKED
    LIMIT 1` scans the pending rows in id order, skipping rows locked by
    other open transactions, and locks the row it picks; the commit at line
    84 publishes `in_progress`, stamps `last_attempt` and releases the lock.
    Model: `ids` is the table's id column in ascending order, each worker's
    claim is one lock step (the select) followed by one commit step, and
    `owner` is ghost state recording which worker claimed a row. -/

/-- One `urls` row as the claim protocol sees it, plus the row lock and the
    ghost `owner` field. -/
structure RowData where
  status : UStatus
  lockedBy : Option Nat
  owner : Option Nat
  lastAttempt : Option Nat
deriving DecidableEq, Repr

/-- What a claim call returns to worker `w`: a claimed row id, or Empty. -/
inductive CEvent
  | claimed (w : Nat) (id : Nat)
  | empty (w : Nat)
deriving DecidableEq, Repr

/-- A row the select may pick: pending and not locked (SKIP LOCKED). -/
def claimableRow (r : RowData) : Bool := r.status == .pending && r.lockedBy == none

/-- Pointwise table update. -/
def updTbl (t : Nat → RowData) (id : Nat) (v : RowData) : Nat → RowData :=
  fun j => if j = id then v else t j

/-- One scheduler step of worker `w`: if `w` holds a row lock, commit it
    (status `in_progress`, stamp `last_attempt`, release the lock — line 84);
    otherwise run the select, locking the first claimable row in id order,
    or observe Empty when none exists. -/
def claimStepT (ids : List Nat) (t : Nat → RowData) (w clock : Nat) :
    (Nat → RowData) × Option CEvent :=
  match ids.find? (fun id => (t id).lockedBy == some w) with
  | some id =>
    (updTbl t id { t id with status := .in_progress, owner := some w,
                             lockedBy := none, lastAttempt := some clock },
     some (.claimed w id))
  | none =>
    match ids.find? (fun id => claimableRow (t id)) with
    | some id => (updTbl t id { t id with lockedBy := some w }, none)
    | none => (t, some (.empty w))

/-- Run an arbitrary interleaving of worker steps. -/
def claimRun (ids : List Nat) :
    (Nat → RowData) → Nat → List Nat → (Nat → RowData) × List CEvent
  | t, _, [] => (t, [])
  | t, clock, w :: ws =>
    let r := claimStepT ids t w clock
    let rest := claimRun ids r.1 (clock + 1) ws
    (rest.1, r.2.toList ++ rest.2)

/-- The row ids the claim calls of a trace returned. -/
def claimedIds (evs : List CEvent) : List Nat :=
  evs.filterMap (fun e => match e with | .claimed _ i => some i | _ => none)

/-- The invariant the protocol maintains over any interleaving: rows off the
    table and rows that did not start pending are untouched; a row that
    started pending is still pending and unowned, or committed to exactly
    the worker of its (unique) claim event; locks sit only on pending table
    rows, each lock value on at most one row; every claim event points at a
    row that started pending and now carries that worker as owner; and no
    row id is returned twice. -/
structure ClaimInv (ids : List Nat) (t0 t : Nat → RowData) (evs : List CEvent) : Prop where
  offIds : ∀ id, id ∉ ids → t id = t0 id
  frozen : ∀ id, (t0 id).status ≠ .pending → t id = t0 id
  pend : ∀ id, (t0 id).status = .pending →
    ((t id).status = .pending ∧ (t id).owner = none) ∨
    ((t id).status = .in_progress ∧ (t id).lockedBy = none ∧
      ∃ w, (t id).owner = some w ∧ CEvent.claimed w id ∈ evs)
  lockPend : ∀ id, (t id).lockedBy ≠ none → (t id).status = .pending ∧ id ∈ ids
  lockUniq : ∀ v id id', (t id).lockedBy = some v → (t id').lockedBy = some v → id = id'
  evSound : ∀ w id, CEvent.claimed w id ∈ evs →
    id ∈ ids ∧ (t0 id).status = .pending ∧ (t id).status = .in_progress ∧
    (t id).owner = some w
  evNodup : (claimedIds evs).Nodup

/-- A fresh all-pending table. -/
def cT0 : Nat → RowData :=
  fun _ => { status := .pending, lockedBy := none, owner := none, lastAttempt := none }

/-! ### Theorems. -/

/-- C8: classification is a pure, deterministic function of the URL's
    authority component and the seed's authority: it factors through
    `urlNetloc` (so identical authorities always yield identical output), and
    it returns `internal` exactly when the two authorities are equal. -/
theorem C8_classify_authority :
    (∀ u b, classify u b = Category.internal ↔ urlNetloc u = b) ∧
    (∀ u₁ u₂ b, urlNetloc u₁ = urlNetloc u₂ → classify u₁ b = classify u₂ b) ∧
    (∀ u b, classify u b = Category.external ↔ urlNetloc u ≠ b) := by
  refine ⟨fun u b => ?_, fun u₁ u₂ b h => ?_, fun u b => ?_⟩
  · unfold classify; split <;> simp_all
  · unfold classify; rw [h]
  · unfold classify; split <;> simp_all

/-- Witness for C8 at concrete inputs: `http://a.test/x` is internal for seed
    authority `a.test`, and two URLs with equal authority classify alike. -/
theorem C8_classify_authority_witness :
    classify "http://a.test/x" "a.test" = Category.internal ∧
    classify "https://a.test/y" "b.test" = classify "http://a.test/0" "b.test" := by
  constructor
  · exact (C8_classify_authority.1 _ _).mpr (by decide)
  · exact C8_classify_authority.2.1 _ _ _ (by decide)

theorem sha256hex_length (msg : List Nat) : (sha256hex msg).length = 64 := rfl

theorem hexDigitChar_mem (n : Nat) : hexDigitChar n ∈ hexDigits := by
  have h : n % 16 < hexDigits.length := by
    have h16 : n % 16 < 16 := Nat.mod_lt _ (by norm_num)
    simpa [hexDigits] using h16
  simp only [hexDigitChar]
  rw [List.getD_eq_get?, List.get?_eq_get h]
  exact List.get_mem _ _ _

theorem word2hex_mem (c : Char) (w : Nat) (h : c ∈ word2hex w) : c ∈ hexDigits := by
  simp only [word2hex, List.mem_cons, List.not_mem_nil, or_false] at h
  rcases h with h | h | h | h | h | h | h | h <;>
    (subst h; exact hexDigitChar_mem _)

theorem sha256hex_hexchars (msg : List Nat) (c : Char)
    (hc : c ∈ (sha256hex msg).data) : c ∈ hexDigits := by
  have h8 : c ∈ word2hex (sha256Words msg).h0 ++ (word2hex (sha256Words msg).h1 ++
      (word2hex (sha256Words msg).h2 ++ (word2hex (sha256Words msg).h3 ++
        (word2hex (sha256Words msg).h4 ++ (word2hex (sha256Words msg).h5 ++
          (word2hex (sha256Words msg).h6 ++ word2hex (sha256Words msg).h7)))))) := hc
  simp only [List.mem_append] at h8
  rcases h8 with h | h | h | h | h | h | h | h <;> exact word2hex_mem _ _ h

theorem applyOps_cons (db : DBState) (op : WriteOp) (rest : List WriteOp) :
    db.applyOps (op :: rest) = (db.apply1 op).applyOps rest := rfl

theorem applyOps_append (db : DBState) (l1 l2 : List WriteOp) :
    db.applyOps (l1 ++ l2) = (db.applyOps l1).applyOps l2 :=
  List.foldl_append _ _ _ _

theorem applyOps_snaps (ops : List WriteOp) (db : DBState) :
    (db.applyOps ops).snaps = db.snaps ++ opsSnaps ops := by
  induction ops generalizing db with
  | nil => simp [DBState.applyOps, opsSnaps]
  | cons op rest ih =>
    rw [applyOps_cons, ih]
    cases op <;> simp [DBState.apply1, opsSnaps]

theorem applyOps_links (ops : List WriteOp) (db : DBState) :
    (db.applyOps ops).links = db.links ++ opsLinks ops := by
  induction ops generalizing db with
  | nil => simp [DBState.applyOps, opsLinks]
  | cons op rest ih =>
    rw [applyOps_cons, ih]
    cases op <;> simp [DBState.apply1, opsLinks]

theorem opsSnaps_linkOps (sid : Nat) (l : List (Nat × Nat)) :
    opsSnaps (l.map (fun e =>
      (.addLink { source_id := e.1, target_id := e.2, snapshot_id := sid } : WriteOp))) = [] := by
  induction l with
  | nil => rfl
  | cons e rest ih => simpa [opsSnaps, List.filterMap_cons] using ih

theorem opsLinks_linkOps (sid : Nat) (l : List (Nat × Nat)) :
    opsLinks (l.map (fun e =>
      (.addLink { source_id := e.1, target_id := e.2, snapshot_id := sid } : WriteOp)))
      = l.map (fun e => { source_id := e.1, target_id := e.2, snapshot_id := sid }) := by
  induction l with
  | nil => rfl
  | cons e rest ih => simpa [opsLinks, List.filterMap_cons] using ih

theorem applyOps_urls_linkOps (sid : Nat) (l : List (Nat × Nat)) (db : DBState) :
    (db.applyOps (l.map (fun e =>
      (.addLink { source_id := e.1, target_id := e.2, snapshot_id := sid } : WriteOp)))).urls
      = db.urls := by
  induction l generalizing db with
  | nil => rfl
  | cons e rest ih => simpa [applyOps_cons, DBState.apply1] using ih _

theorem findStatus_set (urls : List UrlRow) (uid : Nat) (st : UStatus) :
    ((urls.map (fun r => if r.id == uid then { r with status := st } else r)).find?
        (fun r => r.id == uid)).map UrlRow.status
      = ((urls.find? (fun r => r.id == uid)).map UrlRow.status).map (fun _ => st) := by
  induction urls with
  | nil => rfl
  | cons r rest ih =>
    by_cases h : r.id = uid
    · simp [List.find?, h]
    · have hb : (r.id == uid) = false := by simp [h]
      simp only [List.map_cons, List.find?, hb]
      simpa [hb] using ih

theorem find?_append_some {p : UrlRow → Bool} (l1 l2 : List UrlRow) (r : UrlRow)
    (h : l1.find? p = some r) : (l1 ++ l2).find? p = some r := by
  induction l1 with
  | nil => exact absurd h (by simp)
  | cons a t ih =>
    cases ha : p a with
    | true =>
      simp only [List.find?, ha] at h
      simp only [List.cons_append, List.find?, ha]
      exact h
    | false =>
      simp only [List.find?, ha] at h
      simp only [List.cons_append, List.find?, ha]
      exact ih h

theorem regExtends_refl (s : Session) (h : s.pending = []) : RegExtends s s :=
  ⟨h, rfl, rfl, rfl, rfl, [], by simp⟩

theorem regExtends_trans {s1 s2 s3 : Session} (h12 : RegExtends s1 s2)
    (h23 : RegExtends s2 s3) : RegExtends s1 s3 := by
  obtain ⟨a1, a2, a3, a4, a5, e1, he1⟩ := h12
  obtain ⟨b1, b2, b3, b4, b5, e2, he2⟩ := h23
  exact ⟨b1, b2.trans a2, b3.trans a3, b4.trans a4, b5.trans a5, e1 ++ e2,
    by rw [he2, he1, List.append_assoc]⟩

theorem insertNew_spec (b href : String) (s : Session) (hpend : s.pending = []) :
    RegExtends s (insertNew b href s) ∧
    ∃ r : UrlRow, (insertNew b href s).committed.urls = s.committed.urls ++ [r] ∧
      r.url = href ∧ r.id = s.nextUrlId := by
  have hc : (insertNew b href s).committed.urls
      = s.committed.urls ++ [{ id := s.nextUrlId, url := href,
                               category := if urlNetloc href == b then Category.internal
                                           else Category.external,
                               status := UStatus.pending }] := by
    simp [insertNew, Session.commit, Session.add, hpend, DBState.applyOps, DBState.apply1]
  refine ⟨⟨rfl, ?_, ?_, rfl, rfl, ⟨_, hc⟩⟩, ⟨_, hc, rfl, rfl⟩⟩
  · simp [insertNew, Session.commit, Session.add, hpend, DBState.applyOps, DBState.apply1]
  · simp [insertNew, Session.commit, Session.add, hpend, DBState.applyOps, DBState.apply1]

theorem registerOne_spec (env : Env) (b : String) (cur : UrlRow)
    (links : List (Nat × Nat)) (s : Session) (href : String)
    (hpend : s.pending = []) :
    (∃ e s', registerOne env b cur (links, s) href = .error (e, s') ∧ RegExtends s s') ∨
    (∃ links' s', registerOne env b cur (links, s) href = .ok (links', s') ∧ RegExtends s s' ∧
      (keepP cur.url href = false → links' = links ∧ s' = s) ∧
      (keepP cur.url href = true → ∃ tid, links' = links ++ [(cur.id, tid)] ∧
        ∃ r ∈ s'.committed.urls, r.url = href ∧ r.id = tid)) := by
  cases hcur : (href == cur.url) with
  | true =>
    have hk : keepP cur.url href = false := by simp [keepP, hcur]
    exact Or.inr ⟨links, s, by simp [registerOne, hcur], regExtends_refl s hpend,
      fun _ => ⟨rfl, rfl⟩, fun hkt => by simp [hk] at hkt⟩
  | false =>
    cases hsch : (urlScheme href == "http" || urlScheme href == "https") with
    | false =>
      have hk : keepP cur.url href = false := by simp [keepP, hcur, hsch]
      exact Or.inr ⟨links, s, by simp [registerOne, hcur, hsch], regExtends_refl s hpend,
        fun _ => ⟨rfl, rfl⟩, fun hkt => by simp [hk] at hkt⟩
    | true =>
      have hk : keepP cur.url href = true := by simp [keepP, hcur, hsch]
      cases hfind : s.committed.urls.find? (fun r => r.url == href) with
      | some target =>
        refine Or.inr ⟨links ++ [(cur.id, target.id)], s,
          by simp [registerOne, hcur, hsch, hfind], regExtends_refl s hpend,
          fun hkf => by simp [hk] at hkf, fun _ => ?_⟩
        refine ⟨target.id, rfl, target, List.mem_of_find?_eq_some hfind, ?_, rfl⟩
        have hp := List.find?_some hfind
        exact eq_of_beq hp
      | none =>
        cases hins : env.insertRes href with
        | error e =>
          exact Or.inl ⟨e, s, by simp [registerOne, hcur, hsch, hfind, hins],
            regExtends_refl s hpend⟩
        | ok _ =>
          obtain ⟨hre, r, hurls, hrurl, hrid⟩ := insertNew_spec b href s hpend
          refine Or.inr ⟨links ++ [(cur.id, s.nextUrlId)], insertNew b href s,
            by simp [registerOne, hcur, hsch, hfind, hins], hre,
            fun hkf => by simp [hk] at hkf, fun _ => ?_⟩
          exact ⟨s.nextUrlId, rfl, r, by rw [hurls]; exact List.mem_append_right _ (by simp),
            hrurl, hrid⟩

theorem except_bind_ok {ε α β : Type} (a : α) (f : α → Except ε β) :
    ((Except.ok a : Except ε α) >>= f) = f a := rfl

theorem except_bind_error {ε α β : Type} (e : ε) (f : α → Except ε β) :
    ((Except.error e : Except ε α) >>= f) = Except.error e := rfl

theorem registerFold_spec (env : Env) (b : String) (cur : UrlRow) :
    ∀ (hrefs : List String) (links0 : List (Nat × Nat)) (s : Session),
      s.pending = [] → hrefs.Nodup →
      (∃ e sF, hrefs.foldlM (registerOne env b cur) (links0, s) = .error (e, sF) ∧
        RegExtends s sF) ∨
      (∃ (s1 : Session) (f : String → Nat),
        hrefs.foldlM (registerOne env b cur) (links0, s) =
          .ok (links0 ++ (hrefs.filter (keepP cur.url)).map (fun x => (cur.id, f x)), s1) ∧
        RegExtends s s1 ∧
        ∀ x ∈ hrefs.filter (keepP cur.url),
          ∃ r ∈ s1.committed.urls, r.url = x ∧ r.id = f x) := by
  intro hrefs
  induction hrefs with
  | nil =>
    intro links0 s hpend _
    exact Or.inr ⟨s, fun _ => 0, by simp [List.foldlM]; rfl, regExtends_refl s hpend, by simp⟩
  | cons hd tl ih =>
    intro links0 s hpend hnd
    have hnotin : hd ∉ tl := (List.nodup_cons.mp hnd).1
    have hnd' : tl.Nodup := (List.nodup_cons.mp hnd).2
    have hstep : (hd :: tl).foldlM (registerOne env b cur) (links0, s)
        = (registerOne env b cur (links0, s) hd >>=
            fun acc => tl.foldlM (registerOne env b cur) acc) := rfl
    rcases registerOne_spec env b cur links0 s hd hpend with
      ⟨e, s', hro, hre⟩ | ⟨links', s', hro, hre, hkf, hkt⟩
    · exact Or.inl ⟨e, s', by rw [hstep, hro, except_bind_error], hre⟩
    · cases hk : keepP cur.url hd with
      | false =>
        obtain ⟨hl, hs⟩ := hkf hk
        rw [hl, hs] at hro
        have hfc : (hd :: tl).filter (keepP cur.url) = tl.filter (keepP cur.url) := by
          simp [List.filter_cons, hk]
        rcases ih links0 s hpend hnd' with ⟨e, sF, hfold, hre2⟩ | ⟨s1, f, hfold, hre2, hrows⟩
        · exact Or.inl ⟨e, sF, by rw [hstep, hro, except_bind_ok, hfold], hre2⟩
        · refine Or.inr ⟨s1, f, ?_, hre2, ?_⟩
          · rw [hstep, hro, except_bind_ok, hfold, hfc]
          · intro x hx
            rw [hfc] at hx
            exact hrows x hx
      | true =>
        obtain ⟨tid, hl, r0, hr0mem, hr0url, hr0id⟩ := hkt hk
        rw [hl] at hro
        have hfc : (hd :: tl).filter (keepP cur.url) = hd :: tl.filter (keepP cur.url) := by
          simp [List.filter_cons, hk]
        rcases ih (links0 ++ [(cur.id, tid)]) s' hre.1 hnd' with
          ⟨e, sF, hfold, hre2⟩ | ⟨s1, f, hfold, hre2, hrows⟩
        · exact Or.inl ⟨e, sF, by rw [hstep, hro, except_bind_ok, hfold],
            regExtends_trans hre hre2⟩
        · refine Or.inr ⟨s1, fun x => if x == hd then tid else f x, ?_,
            regExtends_trans hre hre2, ?_⟩
          · have hmap : (tl.filter (keepP cur.url)).map
                (fun x => ((cur.id, if x == hd then tid else f x) : Nat × Nat))
                = (tl.filter (keepP cur.url)).map (fun x => (cur.id, f x)) := by
              apply List.map_congr_left
              intro x hx
              have hxt : x ∈ tl := List.mem_of_mem_filter hx
              have hne : (x == hd) = false := by
                by_cases hxh : x = hd
                · exact absurd (hxh ▸ hxt) hnotin
                · simp [hxh]
              simp [hne]
            have hhd : ((cur.id, if hd == hd then tid else f hd) : Nat × Nat)
                = (cur.id, tid) := by simp
            rw [hstep, hro, except_bind_ok, hfold, hfc, List.map_cons, hhd, hmap,
              List.append_assoc]
            rfl
          · intro x hx
            rw [hfc] at hx
            rcases List.mem_cons.mp hx with hxh | hxt
            · subst hxh
              refine ⟨r0, ?_, hr0url, by simp [hr0id]⟩
              obtain ⟨_, _, _, _, _, ext, hext⟩ := hre2
              rw [hext]
              exact List.mem_append_left _ hr0mem
            · obtain ⟨r1, hr1mem, hr1url, hr1id⟩ := hrows x hxt
              have hne : (x == hd) = false := by
                by_cases hxh : x = hd
                · exact absurd (hxh ▸ List.mem_of_mem_filter hxt) hnotin
                · simp [hxh]
              exact ⟨r1, hr1mem, hr1url, by simp [hne, hr1id]⟩

theorem opsSnaps_append (l1 l2 : List WriteOp) :
    opsSnaps (l1 ++ l2) = opsSnaps l1 ++ opsSnaps l2 := by
  simp [opsSnaps]

theorem opsLinks_append (l1 l2 : List WriteOp) :
    opsLinks (l1 ++ l2) = opsLinks l1 ++ opsLinks l2 := by
  simp [opsLinks]

theorem statusOf_setStatus (db : DBState) (uid : Nat) (st : UStatus) :
    (db.apply1 (.setStatus uid st)).statusOf uid = (db.statusOf uid).map (fun _ => st) := by
  simp only [DBState.apply1, DBState.statusOf]
  exact findStatus_set db.urls uid st

theorem foldl_addLink_pending (l : List (Nat × Nat)) (sid : Nat) (s : Session) :
    l.foldl (fun acc e =>
      acc.add (.addLink { source_id := e.1, target_id := e.2, snapshot_id := sid })) s
    = { s with pending := s.pending ++ l.map (fun e =>
          (.addLink { source_id := e.1, target_id := e.2, snapshot_id := sid } : WriteOp)) } := by
  induction l generalizing s with
  | nil => simp
  | cons e rest ih =>
    rw [List.foldl_cons, ih]
    simp [Session.add, List.append_assoc]

theorem externalPath_spec (reqRes : Except String Int) (cur : UrlRow) (rid : Nat)
    (m : CMode) (s : Session) (hpend : s.pending = []) :
    (externalPath reqRes cur rid m s).1.pending = [] ∧
    (externalPath reqRes cur rid m s).1.pagesOpened = s.pagesOpened ∧
    (externalPath reqRes cur rid m s).1.committed.snaps
      = s.committed.snaps ++ [(s.nextSnapId, mkExtSnap cur rid m reqRes)] ∧
    (externalPath reqRes cur rid m s).1.committed.links = s.committed.links ∧
    (externalPath reqRes cur rid m s).1.committed.statusOf cur.id
      = (s.committed.statusOf cur.id).map (fun _ => UStatus.done) ∧
    (externalPath reqRes cur rid m s).2
      = { url := cur.url, statusOnly := true, timeoutMs := 30000 } := by
  have h1 : (externalPath reqRes cur rid m s).1.committed
      = (s.committed.apply1 (.addSnap s.nextSnapId (mkExtSnap cur rid m reqRes))).apply1
          (.setStatus cur.id .done) := by
    simp [externalPath, Session.commit, Session.add, hpend, DBState.applyOps]
  refine ⟨rfl, rfl, ?_, ?_, ?_, rfl⟩
  · rw [h1]
    simp [DBState.apply1]
  · rw [h1]
    simp [DBState.apply1]
  · rw [h1, statusOf_setStatus]
    rfl

theorem errorCommit_spec (cur : UrlRow) (rid : Nat) (m : CMode) (msg : String)
    (sR : Session) (hp : sR.pending = []) :
    (errorCommit cur rid m msg sR).pending = [] ∧
    (errorCommit cur rid m msg sR).pagesOpened = sR.pagesOpened ∧
    (errorCommit cur rid m msg sR).committed.snaps
      = sR.committed.snaps ++ [(sR.nextSnapId, mkErrorSnap cur rid m msg)] ∧
    (errorCommit cur rid m msg sR).committed.links = sR.committed.links ∧
    (errorCommit cur rid m msg sR).committed.statusOf cur.id
      = (sR.committed.statusOf cur.id).map (fun _ => UStatus.error) := by
  have h1 : (errorCommit cur rid m msg sR).committed
      = (sR.committed.apply1 (.addSnap sR.nextSnapId (mkErrorSnap cur rid m msg))).apply1
          (.setStatus cur.id .error) := by
    simp [errorCommit, Session.commit, Session.add, hp, DBState.applyOps]
  refine ⟨rfl, rfl, ?_, ?_, ?_⟩
  · rw [h1]
    simp [DBState.apply1]
  · rw [h1]
    simp [DBState.apply1]
  · rw [h1, statusOf_setStatus]
    rfl

theorem successCommit_spec (cur : UrlRow) (rid : Nat) (m : CMode)
    (respStatus : Option Int) (perf : PerfT) (content : String)
    (newLinks : List (Nat × Nat)) (s1 : Session) (hp1 : s1.pending = []) :
    (successCommit cur rid m respStatus perf content newLinks s1).pending = [] ∧
    (successCommit cur rid m respStatus perf content newLinks s1).pagesOpened
      = s1.pagesOpened ∧
    (successCommit cur rid m respStatus perf content newLinks s1).committed.snaps
      = s1.committed.snaps
        ++ [(s1.nextSnapId, mkSuccessSnap cur rid m respStatus perf content)] ∧
    (successCommit cur rid m respStatus perf content newLinks s1).committed.links
      = s1.committed.links ++ newLinks.map (fun e =>
          ({ source_id := e.1, target_id := e.2, snapshot_id := s1.nextSnapId } : LinkRow)) ∧
    (successCommit cur rid m respStatus perf content newLinks s1).committed.statusOf cur.id
      = (s1.committed.statusOf cur.id).map (fun _ => UStatus.done) := by
  have hops : (successCommit cur rid m respStatus perf content newLinks s1).committed
      = s1.committed.applyOps
          (((.addSnap s1.nextSnapId (mkSuccessSnap cur rid m respStatus perf content)
              : WriteOp) ::
            newLinks.map (fun e =>
              (.addLink { source_id := e.1, target_id := e.2, snapshot_id := s1.nextSnapId } : WriteOp)))
           ++ [(.setStatus cur.id .done : WriteOp)]) := by
    simp only [successCommit]
    rw [foldl_addLink_pending]
    simp [Session.add, Session.commit, hp1]
  refine ⟨rfl, ?_, ?_, ?_, ?_⟩
  · simp only [successCommit]
    rw [foldl_addLink_pending]
    rfl
  · rw [hops, applyOps_snaps]
    rw [show ((.addSnap s1.nextSnapId (mkSuccessSnap cur rid m respStatus perf content)
        : WriteOp) ::
        newLinks.map (fun e =>
          (.addLink { source_id := e.1, target_id := e.2, snapshot_id := s1.nextSnapId } : WriteOp)))
        = [(.addSnap s1.nextSnapId (mkSuccessSnap cur rid m respStatus perf content)
            : WriteOp)] ++
          newLinks.map (fun e =>
            (.addLink { source_id := e.1, target_id := e.2, snapshot_id := s1.nextSnapId } : WriteOp))
        from rfl]
    rw [opsSnaps_append, opsSnaps_append, opsSnaps_linkOps]
    simp [opsSnaps]
  · rw [hops, applyOps_links]
    rw [show ((.addSnap s1.nextSnapId (mkSuccessSnap cur rid m respStatus perf content)
        : WriteOp) ::
        newLinks.map (fun e =>
          (.addLink { source_id := e.1, target_id := e.2, snapshot_id := s1.nextSnapId } : WriteOp)))
        = [(.addSnap s1.nextSnapId (mkSuccessSnap cur rid m respStatus perf content)
            : WriteOp)] ++
          newLinks.map (fun e =>
            (.addLink { source_id := e.1, target_id := e.2, snapshot_id := s1.nextSnapId } : WriteOp))
        from rfl]
    rw [opsLinks_append, opsLinks_append, opsLinks_linkOps]
    simp [opsLinks]
  · rw [hops, applyOps_append]
    rw [show (s1.committed.applyOps
        ((.addSnap s1.nextSnapId (mkSuccessSnap cur rid m respStatus perf content)
          : WriteOp) ::
          newLinks.map (fun e =>
            (.addLink { source_id := e.1, target_id := e.2, snapshot_id := s1.nextSnapId } : WriteOp)))).applyOps
          [(.setStatus cur.id .done : WriteOp)]
        = (s1.committed.applyOps
            ((.addSnap s1.nextSnapId (mkSuccessSnap cur rid m respStatus perf content)
              : WriteOp) ::
              newLinks.map (fun e =>
                (.addLink { source_id := e.1, target_id := e.2, snapshot_id := s1.nextSnapId } : WriteOp)))).apply1
            (.setStatus cur.id .done) from rfl]
    rw [statusOf_setStatus]
    have hurls : (s1.committed.applyOps
        ((.addSnap s1.nextSnapId (mkSuccessSnap cur rid m respStatus perf content)
          : WriteOp) ::
          newLinks.map (fun e =>
            (.addLink { source_id := e.1, target_id := e.2, snapshot_id := s1.nextSnapId } : WriteOp)))).urls
        = s1.committed.urls := by
      rw [applyOps_cons]
      rw [applyOps_urls_linkOps]
      rfl
    simp only [DBState.statusOf, hurls]

/-- `registerLoop` is `foldlM` with the empty edge accumulator. -/
theorem registerLoop_eq (env : Env) (b : String) (cur : UrlRow)
    (hrefs : List String) (s : Session) :
    registerLoop env b cur hrefs s = hrefs.foldlM (registerOne env b cur) ([], s) := rfl

theorem tryBlock_spec (env : Env) (b : String) (cur : UrlRow) (rid : Nat) (m : CMode)
    (s : Session) (hpend : s.pending = []) :
    (∃ e sF, tryBlock env b cur rid m s = .error (e, sF) ∧ RegExtends s sF) ∨
    (∃ (respStatus : Option Int) (perf : PerfT) (content : String)
       (newLinks : List (Nat × Nat)) (s1 : Session),
      tryBlock env b cur rid m s
        = .ok (successCommit cur rid m respStatus perf content newLinks s1) ∧
      env.gotoRes = .ok respStatus ∧ env.perfRes = .ok perf ∧
      env.contentRes = .ok content ∧ RegExtends s s1) := by
  unfold tryBlock
  cases hg : env.gotoRes with
  | error e => exact Or.inl ⟨e, s, rfl, regExtends_refl s hpend⟩
  | ok respStatus =>
    cases hs2 : env.settleRes with
    | error e => exact Or.inl ⟨e, s, rfl, regExtends_refl s hpend⟩
    | ok u =>
      cases hp : env.perfRes with
      | error e => exact Or.inl ⟨e, s, rfl, regExtends_refl s hpend⟩
      | ok perf =>
        cases hh : env.hrefsRes with
        | error e => exact Or.inl ⟨e, s, rfl, regExtends_refl s hpend⟩
        | ok hrefs =>
          rcases registerFold_spec env b cur hrefs.dedup [] s hpend
              (List.nodup_dedup _) with
            ⟨e, sF, hfold, hre⟩ | ⟨s1, f, hfold, hre, hrows⟩
          · refine Or.inl ⟨e, sF, ?_, hre⟩
            simp only [registerLoop_eq, hfold]
          · cases hc : env.contentRes with
            | error e2 =>
              refine Or.inl ⟨e2, s1, ?_, hre⟩
              simp only [registerLoop_eq, hfold]
            | ok content =>
              refine Or.inr ⟨respStatus, perf, content,
                [] ++ (hrefs.dedup.filter (keepP cur.url)).map (fun x => (cur.id, f x)),
                s1, ?_, rfl, rfl, rfl, hre⟩
              simp only [registerLoop_eq, hfold]

theorem internalPath_spec (env : Env) (b : String) (cur : UrlRow) (rid : Nat)
    (m : CMode) (s : Session) (hpend : s.pending = []) :
    ∃ sn : SnapRow,
      (internalPath env b cur rid m s).committed.snaps
        = s.committed.snaps ++ [(s.nextSnapId, sn)] ∧
      ((∃ e, sn = mkErrorSnap cur rid m e) ∨
       (∃ respStatus perf content, env.gotoRes = Except.ok respStatus ∧
          sn = mkSuccessSnap cur rid m respStatus perf content)) := by
  rcases tryBlock_spec env b cur rid m { s with pagesOpened := s.pagesOpened + 1 }
      hpend with
    ⟨e, sF, htb, hre⟩ | ⟨respStatus, perf, content, newLinks, s1, htb, hg, hp, hc, hre⟩
  · have hr : internalPath env b cur rid m s = errorCommit cur rid m e sF.rollback := by
      simp only [internalPath]
      rw [htb]
    obtain ⟨hp0, hp1, hsn, hlk, hst⟩ := errorCommit_spec cur rid m e sF.rollback rfl
    refine ⟨mkErrorSnap cur rid m e, ?_, Or.inl ⟨e, rfl⟩⟩
    rw [hr, hsn]
    obtain ⟨_, hsnaps, _, hnsi, _, _⟩ := hre
    rw [show sF.rollback.committed.snaps = sF.committed.snaps from rfl, hsnaps,
      show sF.rollback.nextSnapId = sF.nextSnapId from rfl, hnsi]
  · have hr : internalPath env b cur rid m s
        = successCommit cur rid m respStatus perf content newLinks s1 := by
      simp only [internalPath]
      rw [htb]
    obtain ⟨_, _, hsn, hlk, hst⟩ :=
      successCommit_spec cur rid m respStatus perf content newLinks s1 hre.1
    refine ⟨mkSuccessSnap cur rid m respStatus perf content, ?_,
      Or.inr ⟨respStatus, perf, content, hg, rfl⟩⟩
    rw [hr, hsn]
    obtain ⟨_, hsnaps, _, hnsi, _, _⟩ := hre
    rw [hsnaps, hnsi]

/-- C1 counterexample: the internal success path writes `status_code =
    resp.status if resp else None` (crawler.py line 114), so an attempt whose
    navigation returns no response object commits a Snapshot with
    `status_code` and `error_message` both empty — the claimed
    exactly-one-of invariant fails on it. -/
theorem C1_counterexample :
    ((internalPath cEnvNullResp "a.test" cCur 1 CMode.desktop cSession0).committed.snaps.map
      (fun p => snapOk p.2)) = [false] := rfl

/-- C1 amended: every Snapshot the pipeline writes has never both fields
    populated; the external path and the internal error path satisfy the
    exactly-one-of invariant, and the only violation is the internal success
    Snapshot of a navigation that returned no response object, which has both
    fields empty. -/
theorem C1_snapshot_fields_amended :
    (∀ reqRes cur rid m s, s.pending = [] →
      ∃ sn : SnapRow,
        (externalPath reqRes cur rid m s).1.committed.snaps
          = s.committed.snaps ++ [(s.nextSnapId, sn)] ∧ snapOk sn = true) ∧
    (∀ env b cur rid m s, s.pending = [] →
      ∃ sn : SnapRow,
        (internalPath env b cur rid m s).committed.snaps
          = s.committed.snaps ++ [(s.nextSnapId, sn)] ∧
        (sn.status_code.isSome && sn.error_message.isSome) = false ∧
        (snapOk sn = false → env.gotoRes = Except.ok none ∧
          sn.status_code = none ∧ sn.error_message = none)) := by
  constructor
  · intro reqRes cur rid m s hpend
    obtain ⟨_, _, hsn, _, _, _⟩ := externalPath_spec reqRes cur rid m s hpend
    refine ⟨mkExtSnap cur rid m reqRes, hsn, ?_⟩
    cases reqRes <;> rfl
  · intro env b cur rid m s hpend
    obtain ⟨sn, hsn, hshape⟩ := internalPath_spec env b cur rid m s hpend
    refine ⟨sn, hsn, ?_, ?_⟩
    · rcases hshape with ⟨e, rfl⟩ | ⟨rs, perf, content, hg, rfl⟩
      · rfl
      · cases rs <;> rfl
    · intro hfalse
      rcases hshape with ⟨e, rfl⟩ | ⟨rs, perf, content, hg, rfl⟩
      · exact absurd hfalse (by simp [snapOk, mkErrorSnap])
      · cases rs with
        | none => exact ⟨hg, rfl, rfl⟩
        | some v => exact absurd hfalse (by simp [snapOk, mkSuccessSnap])

/-- Witness for the amended C1 at a concrete session and outcome. -/
theorem C1_snapshot_fields_amended_witness :
    cSession0.pending = [] ∧
    (∃ sn : SnapRow,
      (externalPath (Except.ok 200) cCur 1 CMode.desktop cSession0).1.committed.snaps
        = cSession0.committed.snaps ++ [(cSession0.nextSnapId, sn)] ∧ snapOk sn = true) :=
  ⟨rfl, C1_snapshot_fields_amended.1 (Except.ok 200) cCur 1 CMode.desktop cSession0 rfl⟩

/-- C4: when any step of the internal path raises (`tryBlock` escapes with
    failure text `e`), the attempt's staged writes are rolled back: the only
    Snapshot the attempt commits is the single error Snapshot carrying `e`
    with every other nullable field empty, no Link row of the attempt
    survives, and the URL's status becomes `error`. -/
theorem C4_error_attempt (env : Env) (b : String) (cur : UrlRow) (rid : Nat)
    (m : CMode) (s : Session) (e : String) (sF : Session)
    (hpend : s.pending = [])
    (hfail : tryBlock env b cur rid m { s with pagesOpened := s.pagesOpened + 1 }
      = .error (e, sF)) :
    (internalPath env b cur rid m s).committed.snaps
      = s.committed.snaps ++ [(s.nextSnapId, mkErrorSnap cur rid m e)] ∧
    (mkErrorSnap cur rid m e).error_message = some e ∧
    (mkErrorSnap cur rid m e).status_code = none ∧
    (mkErrorSnap cur rid m e).content_hash = none ∧
    (mkErrorSnap cur rid m e).content = none ∧
    (mkErrorSnap cur rid m e).ttfb_ms = none ∧
    (mkErrorSnap cur rid m e).dom_content_loaded_ms = none ∧
    (mkErrorSnap cur rid m e).load_event_end_ms = none ∧
    (internalPath env b cur rid m s).committed.links = s.committed.links ∧
    (∀ r0, s.committed.urls.find? (fun r => r.id == cur.id) = some r0 →
      (internalPath env b cur rid m s).committed.statusOf cur.id
        = some UStatus.error) := by
  rcases tryBlock_spec env b cur rid m { s with pagesOpened := s.pagesOpened + 1 }
      hpend with
    ⟨e2, sF2, htb, hre⟩ | ⟨respStatus, perf, content, newLinks, s1, htb, hg, hp, hc, hre⟩
  · rw [htb] at hfail
    injection hfail with hpair
    rw [Prod.mk.injEq] at hpair
    obtain ⟨rfl, rfl⟩ := hpair
    have hr : internalPath env b cur rid m s = errorCommit cur rid m e2 sF2.rollback := by
      simp only [internalPath]
      rw [htb]
    obtain ⟨hp0, hp1, hsn, hlk, hst⟩ := errorCommit_spec cur rid m e2 sF2.rollback rfl
    obtain ⟨_, hsnaps, hlinks, hnsi, _, ext, hurls⟩ := hre
    refine ⟨?_, rfl, rfl, rfl, rfl, rfl, rfl, rfl, ?_, ?_⟩
    · rw [hr, hsn]
      rw [show sF2.rollback.committed.snaps = sF2.committed.snaps from rfl, hsnaps,
        show sF2.rollback.nextSnapId = sF2.nextSnapId from rfl, hnsi]
    · rw [hr, hlk]
      rw [show sF2.rollback.committed.links = sF2.committed.links from rfl, hlinks]
    · intro r0 hr0
      rw [hr, hst]
      have hfind : sF2.rollback.committed.urls.find? (fun r => r.id == cur.id)
          = some r0 := by
        rw [show sF2.rollback.committed.urls = sF2.committed.urls from rfl, hurls]
        exact find?_append_some _ _ _ hr0
      rw [show sF2.rollback.committed.statusOf cur.id
          = (sF2.rollback.committed.urls.find? (fun r => r.id == cur.id)).map
              UrlRow.status from rfl, hfind]
      rfl
  · rw [htb] at hfail
    exact absurd hfail (by simp)

/-- Witness for C4: a concrete navigation failure yields exactly the single
    error Snapshot and the `error` status. -/
theorem C4_error_attempt_witness :
    cSession0.pending = [] ∧
    (internalPath cEnvFail "a.test" cCur 1 CMode.desktop cSession0).committed.snaps
      = cSession0.committed.snaps
        ++ [(cSession0.nextSnapId,
             mkErrorSnap cCur 1 CMode.desktop "net::ERR_CONNECTION_REFUSED")] :=
  ⟨rfl,
    (C4_error_attempt cEnvFail "a.test" cCur 1 CMode.desktop cSession0
      "net::ERR_CONNECTION_REFUSED"
      { cSession0 with pagesOpened := cSession0.pagesOpened + 1 } rfl rfl).1⟩

theorem sha256hex_empty_vector :
    sha256hex (utf8Bytes "")
      = "e3b0c44298fc1c149afbf4c8996fb92427ae41e4649b934ca495991b7852b855" := by
  decide

theorem sha256hex_abc_vector :
    sha256hex (utf8Bytes "abc")
      = "ba7816bf8f01cfea414140de5dae2223b00361a396177a9cb410ff61f20015ad" := by
  decide

/-- C6: the external path issues exactly one status-only request with the
    bounded 30000 ms timeout, opens no page, commits exactly one Snapshot —
    `status_code` on success xor `error_message` on exception, with an empty
    `content_hash` — and moves the URL to `done` even when the request
    raised. -/
theorem C6_external_path (reqRes : Except String Int) (cur : UrlRow) (rid : Nat)
    (m : CMode) (s : Session) (hpend : s.pending = []) :
    (externalPath reqRes cur rid m s).2.statusOnly = true ∧
    (externalPath reqRes cur rid m s).2.timeoutMs = 30000 ∧
    (externalPath reqRes cur rid m s).1.pagesOpened = s.pagesOpened ∧
    (externalPath reqRes cur rid m s).1.committed.snaps
      = s.committed.snaps ++ [(s.nextSnapId, mkExtSnap cur rid m reqRes)] ∧
    snapOk (mkExtSnap cur rid m reqRes) = true ∧
    (mkExtSnap cur rid m reqRes).content_hash = none ∧
    (∀ st, reqRes = .ok st → (mkExtSnap cur rid m reqRes).status_code = some st ∧
      (mkExtSnap cur rid m reqRes).error_message = none) ∧
    (∀ e2, reqRes = .error e2 → (mkExtSnap cur rid m reqRes).status_code = none ∧
      (mkExtSnap cur rid m reqRes).error_message = some e2) ∧
    (∀ r0, s.committed.urls.find? (fun r => r.id == cur.id) = some r0 →
      (externalPath reqRes cur rid m s).1.committed.statusOf cur.id
        = some UStatus.done) := by
  obtain ⟨hp0, hpg, hsn, hlk, hst, hreq⟩ := externalPath_spec reqRes cur rid m s hpend
  refine ⟨by rw [hreq], by rw [hreq], hpg, hsn, ?_, ?_, ?_, ?_, ?_⟩
  · cases reqRes <;> rfl
  · cases reqRes <;> rfl
  · intro st hok
    subst hok
    exact ⟨rfl, rfl⟩
  · intro e2 herr
    subst herr
    exact ⟨rfl, rfl⟩
  · intro r0 hr0
    rw [hst]
    rw [show s.committed.statusOf cur.id
        = (s.committed.urls.find? (fun r => r.id == cur.id)).map UrlRow.status from rfl,
      hr0]
    rfl

/-- Witness for C6: a failing external request still commits one Snapshot and
    the `done` status. -/
theorem C6_external_path_witness :
    cSession0.pending = [] ∧
    (externalPath (Except.error "timeout") cCur 1 CMode.desktop cSession0).2.statusOnly
      = true ∧
    (externalPath (Except.error "timeout") cCur 1 CMode.desktop
      cSession0).1.committed.statusOf cCur.id = some UStatus.done := by
  have h := C6_external_path (Except.error "timeout") cCur 1 CMode.desktop cSession0 rfl
  exact ⟨rfl, h.1, h.2.2.2.2.2.2.2.2 cCur (by decide)⟩

theorem registerFold_ok (env : Env) (b : String) (cur : UrlRow)
    (hins : ∀ x, env.insertRes x = .ok ()) :
    ∀ (hrefs : List String) (acc : List (Nat × Nat) × Session),
      ∃ res, hrefs.foldlM (registerOne env b cur) acc = .ok res := by
  intro hrefs
  induction hrefs with
  | nil => intro acc; exact ⟨acc, rfl⟩
  | cons hd tl ih =>
    intro acc
    obtain ⟨links, s⟩ := acc
    have h1 : ∃ mid, registerOne env b cur (links, s) hd = .ok mid := by
      cases hcur : (hd == cur.url) with
      | true => exact ⟨(links, s), by simp [registerOne, hcur]⟩
      | false =>
        cases hsch : (urlScheme hd == "http" || urlScheme hd == "https") with
        | false => exact ⟨(links, s), by simp [registerOne, hcur, hsch]⟩
        | true =>
          cases hfind : s.committed.urls.find? (fun r => r.url == hd) with
          | some t =>
            exact ⟨(links ++ [(cur.id, t.id)], s),
              by simp [registerOne, hcur, hsch, hfind]⟩
          | none =>
            exact ⟨(links ++ [(cur.id, s.nextUrlId)], insertNew b hd s),
              by simp [registerOne, hcur, hsch, hfind, hins hd]⟩
    obtain ⟨mid, hmid⟩ := h1
    obtain ⟨res, hres⟩ := ih mid
    refine ⟨res, ?_⟩
    show (registerOne env b cur (links, s) hd >>=
      fun acc => tl.foldlM (registerOne env b cur) acc) = Except.ok res
    rw [hmid, except_bind_ok]
    exact hres

/-- C7: over the deduplicated href list of one extraction (crawler.py lines
    125-139), the staged targets are exactly the href strings that are not
    the current URL and have an http or https scheme, each occurring once;
    every surviving target resolves to a frontier row holding its string, and
    exactly one edge `(current id, resolved id)` is staged for it. -/
theorem C7_extract_links (env : Env) (b : String) (cur : UrlRow)
    (hrefs : List String) (s : Session)
    (hpend : s.pending = [])
    (hins : ∀ x, env.insertRes x = .ok ()) :
    ∃ (s1 : Session) (f : String → Nat),
      registerLoop env b cur hrefs.dedup s
        = .ok ((hrefs.dedup.filter (keepP cur.url)).map (fun x => (cur.id, f x)), s1) ∧
      (∀ x, x ∈ hrefs.dedup.filter (keepP cur.url) ↔
        (x ∈ hrefs ∧ x ≠ cur.url ∧
          (urlScheme x = "http" ∨ urlScheme x = "https"))) ∧
      (hrefs.dedup.filter (keepP cur.url)).Nodup ∧
      (∀ x ∈ hrefs.dedup.filter (keepP cur.url),
        ∃ r ∈ s1.committed.urls, r.url = x ∧ r.id = f x) := by
  rcases registerFold_spec env b cur hrefs.dedup [] s hpend (List.nodup_dedup _) with
    ⟨e, sF, hfold, _⟩ | ⟨s1, f, hfold, hre, hrows⟩
  · obtain ⟨res, hok⟩ := registerFold_ok env b cur hins hrefs.dedup ([], s)
    rw [hok] at hfold
    exact absurd hfold (by simp)
  · refine ⟨s1, f, ?_, ?_, List.Nodup.filter _ (List.nodup_dedup hrefs), hrows⟩
    · rw [registerLoop_eq, hfold, List.nil_append]
    · intro x
      simp [List.mem_filter, List.mem_dedup, keepP, and_assoc]

/-- Witness for C7 at a concrete extraction: three raw hrefs with a
    duplicate, the current URL itself and a mailto target collapse to one
    staged edge set. -/
theorem C7_extract_links_witness :
    cSession0.pending = [] ∧
    (∀ x, cEnvNullResp.insertRes x = Except.ok ()) ∧
    (∃ (s1 : Session) (f : String → Nat),
      registerLoop cEnvNullResp "a.test" cCur
        ["http://a.test/b", "http://a.test/b", "http://a.test/",
          "mailto:x@a.test"].dedup cSession0
        = .ok ((["http://a.test/b", "http://a.test/b", "http://a.test/",
            "mailto:x@a.test"].dedup.filter (keepP cCur.url)).map (fun x => (cCur.id, f x)),
            s1) ∧
      (∀ x, x ∈ ["http://a.test/b", "http://a.test/b", "http://a.test/",
          "mailto:x@a.test"].dedup.filter (keepP cCur.url) ↔
        (x ∈ ["http://a.test/b", "http://a.test/b", "http://a.test/",
            "mailto:x@a.test"] ∧ x ≠ cCur.url ∧
          (urlScheme x = "http" ∨ urlScheme x = "https"))) ∧
      (["http://a.test/b", "http://a.test/b", "http://a.test/",
          "mailto:x@a.test"].dedup.filter (keepP cCur.url)).Nodup ∧
      (∀ x ∈ ["http://a.test/b", "http://a.test/b", "http://a.test/",
          "mailto:x@a.test"].dedup.filter (keepP cCur.url),
        ∃ r ∈ s1.committed.urls, r.url = x ∧ r.id = f x)) :=
  ⟨rfl, fun _ => rfl,
    C7_extract_links cEnvNullResp "a.test" cCur
      ["http://a.test/b", "http://a.test/b", "http://a.test/", "mailto:x@a.test"]
      cSession0 rfl (fun _ => rfl)⟩

/-- C9: the success Snapshot's fingerprint is the SHA-256 hex digest of the
    UTF-8 serialized content: always 64 lowercase hex characters, and equal
    byte content always yields an equal `content_hash`. -/
theorem C9_content_fingerprint :
    (∀ cur rid m respStatus perf content,
      (mkSuccessSnap cur rid m respStatus perf content).content_hash
        = some (sha256hex (utf8Bytes content))) ∧
    (∀ msg : List Nat, (sha256hex msg).length = 64 ∧
      ∀ c ∈ (sha256hex msg).data, c ∈ hexDigits) ∧
    (∀ cur rid m respStatus perf c1 c2, utf8Bytes c1 = utf8Bytes c2 →
      (mkSuccessSnap cur rid m respStatus perf c1).content_hash
        = (mkSuccessSnap cur rid m respStatus perf c2).content_hash) := by
  refine ⟨fun _ _ _ _ _ _ => rfl,
    fun msg => ⟨sha256hex_length msg, sha256hex_hexchars msg⟩, ?_⟩
  intro cur rid m rs perf c1 c2 h
  simp only [mkSuccessSnap, h]

/-- Witness for C9: equal content gives an equal fingerprint, and a concrete
    digest character is in the hex alphabet. -/
theorem C9_content_fingerprint_witness :
    utf8Bytes "<html></html>" = utf8Bytes "<html></html>" ∧
    (mkSuccessSnap cCur 1 CMode.desktop (some 200) cPerf0 "<html></html>").content_hash
      = (mkSuccessSnap cCur 1 CMode.desktop (some 200) cPerf0 "<html></html>").content_hash ∧
    '0' ∈ (sha256hex (utf8Bytes "")).data ∧ 'e' ∈ hexDigits :=
  ⟨rfl,
    C9_content_fingerprint.2.2 cCur 1 CMode.desktop (some 200) cPerf0 _ _ rfl,
    by decide,
    (C9_content_fingerprint.2.1 (utf8Bytes "")).2 'e' (by decide)⟩

/-- C10: each timing metric of a success Snapshot is the corresponding
    `performance.timing` field minus `navigationStart`, absent fields reading
    as 0 (crawler.py lines 117-122); hence a metric whose event has not fired
    (field 0 or absent) equals minus `navigationStart`, which is negative
    whenever `navigationStart` is positive — it is recorded as a number,
    never as null. -/
theorem C10_timing_metrics (cur : UrlRow) (rid : Nat) (m : CMode)
    (respStatus : Option Int) (perf : PerfT) (content : String) :
    (mkSuccessSnap cur rid m respStatus perf content).ttfb_ms
      = some (perf.responseStart.getD 0 - perf.navigationStart.getD 0) ∧
    (mkSuccessSnap cur rid m respStatus perf content).dom_content_loaded_ms
      = some (perf.domContentLoadedEventEnd.getD 0 - perf.navigationStart.getD 0) ∧
    (mkSuccessSnap cur rid m respStatus perf content).load_event_end_ms
      = some (perf.loadEventEnd.getD 0 - perf.navigationStart.getD 0) ∧
    (perf.responseStart = none →
      (mkSuccessSnap cur rid m respStatus perf content).ttfb_ms
        = some (0 - perf.navigationStart.getD 0)) ∧
    (perf.loadEventEnd.getD 0 = 0 →
      (mkSuccessSnap cur rid m respStatus perf content).load_event_end_ms
        = some (-(perf.navigationStart.getD 0))) ∧
    (perf.loadEventEnd.getD 0 = 0 → 0 < perf.navigationStart.getD 0 →
      ∃ v, (mkSuccessSnap cur rid m respStatus perf content).load_event_end_ms
        = some v ∧ v < 0) := by
  refine ⟨rfl, rfl, rfl, ?_, ?_, ?_⟩
  · intro h
    simp [mkSuccessSnap, h]
  · intro h
    simp [mkSuccessSnap, h]
  · intro h hpos
    refine ⟨perf.loadEventEnd.getD 0 - perf.navigationStart.getD 0, rfl, ?_⟩
    rw [h]
    omega

/-- Witness for C10: with `loadEventEnd` 0 and `navigationStart` 1000 the
    recorded metric is a negative number. -/
theorem C10_timing_metrics_witness :
    (cPerfNeg.responseStart = none ∧ cPerfNeg.loadEventEnd.getD 0 = 0 ∧
      0 < cPerfNeg.navigationStart.getD 0) ∧
    ∃ v, (mkSuccessSnap cCur 1 CMode.desktop (some 200) cPerfNeg "").load_event_end_ms
      = some v ∧ v < 0 :=
  ⟨⟨rfl, rfl, by decide⟩,
    (C10_timing_metrics cCur 1 CMode.desktop (some 200) cPerfNeg "").2.2.2.2.2
      rfl (by decide)⟩

/-- C5 counterexample: a failure in `context.new_page()` (crawler.py line
    111, outside the `try:`) is a failure while processing a claimed URL,
    yet it crashes the worker loop and the next pending task is never
    claimed — so per-URL failures are not all confined to the pipeline. -/
theorem C5_counterexample :
    (workerLoop
      [{ ext := false, allocErr := some "Target closed", failMsg := none },
       { ext := false, allocErr := none, failMsg := some "net::ERR" }]).1
      = LoopEnd.crashed "Target closed" ∧
    (workerLoop
      [{ ext := false, allocErr := some "Target closed", failMsg := none },
       { ext := false, allocErr := none, failMsg := some "net::ERR" }]).2.2
      = [{ ext := false, allocErr := none, failMsg := some "net::ERR" }] := by
  decide

/-- C5 amended: every failure raised inside the handled bodies (the external
    request and the internal `try:` block) is caught and recorded, and the
    same worker proceeds to the next claimed URL; only a failure of the
    rendering-handle allocation itself escapes.  When every internal task's
    `new_page` succeeds, the loop finishes, processes every task in order,
    and records each task's failure text. -/
theorem C5_worker_loop_amended (tasks : List UrlTask)
    (halloc : ∀ t ∈ tasks, t.ext = false → t.allocErr = none) :
    (workerLoop tasks).1 = LoopEnd.finished ∧
    (workerLoop tasks).2.2 = [] ∧
    (workerLoop tasks).2.1 = tasks.map (fun t => (t.ext, t.failMsg)) := by
  induction tasks with
  | nil => exact ⟨rfl, rfl, rfl⟩
  | cons t ts ih =>
    have hts := ih (fun x hx hxe => halloc x (List.mem_cons_of_mem _ hx) hxe)
    cases hext : t.ext with
    | true => simp [workerLoop, hext, hts.1, hts.2.1, hts.2.2]
    | false =>
      have ha := halloc t (List.mem_cons_self _ _) hext
      simp [workerLoop, hext, ha, hts.1, hts.2.1, hts.2.2]

/-- Witness for the amended C5: a worker whose internal attempt fails inside
    the pipeline still finishes its loop and records the failure. -/
theorem C5_worker_loop_amended_witness :
    (∀ t ∈ ([{ ext := false, allocErr := none, failMsg := some "net::ERR" },
             { ext := true, allocErr := none, failMsg := none }] : List UrlTask),
      t.ext = false → t.allocErr = none) ∧
    (workerLoop [{ ext := false, allocErr := none, failMsg := some "net::ERR" },
                 { ext := true, allocErr := none, failMsg := none }]).1
      = LoopEnd.finished :=
  ⟨by decide,
    (C5_worker_loop_amended
      [{ ext := false, allocErr := none, failMsg := some "net::ERR" },
       { ext := true, allocErr := none, failMsg := none }] (by decide)).1⟩

/-- C3 counterexample: with the interleaving check-A, check-B, insert-A,
    insert-B, both workers pass the line-131 check before either commits, so
    worker B's insert violates the unique index and the integrity error
    surfaces as B's outcome — the code has no handler that resolves it to
    the winner's id. -/
theorem C3_counterexample :
    (regRun "http://dup.test/x" cRegSt0 [true, false, true, false]).pB
      = RegPhase.finished (.error "IntegrityError: duplicate entry") ∧
    (regRun "http://dup.test/x" cRegSt0 [true, false, true, false]).pA
      = RegPhase.finished (.ok 1) ∧
    regCount (regRun "http://dup.test/x" cRegSt0 [true, false, true, false]).urls
      "http://dup.test/x" = 1 := by
  decide

theorem regCount_le_one_unique (urls : List (Nat × String)) (href : String)
    (i j : Nat) (hc : regCount urls href ≤ 1)
    (hi : (i, href) ∈ urls) (hj : (j, href) ∈ urls) : i = j := by
  have hfi : (i, href) ∈ urls.filter (fun r => r.2 == href) :=
    List.mem_filter.mpr ⟨hi, by simp⟩
  have hfj : (j, href) ∈ urls.filter (fun r => r.2 == href) :=
    List.mem_filter.mpr ⟨hj, by simp⟩
  unfold regCount at hc
  cases hl : urls.filter (fun r => r.2 == href) with
  | nil =>
    rw [hl] at hfi
    exact absurd hfi (by simp)
  | cons x xs =>
    cases xs with
    | nil =>
      rw [hl] at hfi hfj
      have h1 : (i, href) = x := by simpa using hfi
      have h2 : (j, href) = x := by simpa using hfj
      have := h1.trans h2.symm
      exact congrArg Prod.fst this
    | cons y ys =>
      rw [hl] at hc
      simp at hc

theorem regPhaseOk_append (href : String) (urls ext : List (Nat × String))
    (p : RegPhase) (h : RegPhaseOk href urls p) : RegPhaseOk href (urls ++ ext) p := by
  cases p with
  | toCheck => trivial
  | toInsert f =>
    cases f with
    | some i => exact List.mem_append_left _ h
    | none => trivial
  | finished r =>
    cases r with
    | ok i => exact List.mem_append_left _ h
    | error e => trivial

theorem regStepOne_inv (href : String) (urls : List (Nat × String)) (n : Nat)
    (p q : RegPhase)
    (hc : regCount urls href ≤ 1) (hp : RegPhaseOk href urls p)
    (hq : RegPhaseOk href urls q) :
    regCount (regStepOne href urls n p).2.1 href ≤ 1 ∧
    RegPhaseOk href (regStepOne href urls n p).2.1 (regStepOne href urls n p).1 ∧
    RegPhaseOk href (regStepOne href urls n p).2.1 q := by
  cases p with
  | toCheck =>
    refine ⟨hc, ?_, hq⟩
    show RegPhaseOk href urls (.toInsert (regFind urls href))
    cases hfind : urls.find? (fun r => r.2 == href) with
    | none => simp [RegPhaseOk, regFind, hfind]
    | some pr =>
      have hmem := List.mem_of_find?_eq_some hfind
      have hb := List.find?_some hfind
      have hpred : pr.2 = href := eq_of_beq hb
      have heta : (pr.1, href) = pr := by rw [← hpred]
      simp only [RegPhaseOk, regFind, hfind, Option.map_some']
      rw [heta]
      exact hmem
  | toInsert found =>
    cases found with
    | some i => exact ⟨hc, hp, hq⟩
    | none =>
      cases hany : urls.any (fun r => r.2 == href) with
      | true =>
        have hr : regStepOne href urls n (.toInsert none)
            = (.finished (.error "IntegrityError: duplicate entry"), urls, n) := by
          simp [regStepOne, hany]
        rw [hr]
        exact ⟨hc, trivial, hq⟩
      | false =>
        have hr : regStepOne href urls n (.toInsert none)
            = (.finished (.ok n), urls ++ [(n, href)], n + 1) := by
          simp [regStepOne, hany]
        rw [hr]
        have hc0 : regCount urls href = 0 := by
          unfold regCount
          rw [List.filter_eq_nil.mpr]
          · rfl
          · intro x hx
            have := List.any_eq_false.mp hany x hx
            simpa using this
        refine ⟨?_, ?_, regPhaseOk_append _ _ _ _ hq⟩
        · unfold regCount at hc0 ⊢
          rw [List.filter_append, List.length_append, hc0]
          simp
        · show (n, href) ∈ urls ++ [(n, href)]
          exact List.mem_append_right _ (by simp)
  | finished r => exact ⟨hc, hp, hq⟩

theorem regStep_inv (href : String) (st : RegSt) (w : Bool)
    (h : regCount st.urls href ≤ 1 ∧ RegPhaseOk href st.urls st.pA ∧
      RegPhaseOk href st.urls st.pB) :
    regCount (regStep href st w).urls href ≤ 1 ∧
    RegPhaseOk href (regStep href st w).urls (regStep href st w).pA ∧
    RegPhaseOk href (regStep href st w).urls (regStep href st w).pB := by
  obtain ⟨hc, hpa, hpb⟩ := h
  cases w with
  | true =>
    obtain ⟨h1, h2, h3⟩ := regStepOne_inv href st.urls st.nextId st.pA st.pB hc hpa hpb
    exact ⟨h1, h2, h3⟩
  | false =>
    obtain ⟨h1, h2, h3⟩ := regStepOne_inv href st.urls st.nextId st.pB st.pA hc hpb hpa
    exact ⟨h1, h3, h2⟩

theorem regRun_inv (href : String) (sched : List Bool) :
    ∀ st : RegSt, (regCount st.urls href ≤ 1 ∧ RegPhaseOk href st.urls st.pA ∧
      RegPhaseOk href st.urls st.pB) →
    (regCount (regRun href st sched).urls href ≤ 1 ∧
     RegPhaseOk href (regRun href st sched).urls (regRun href st sched).pA ∧
     RegPhaseOk href (regRun href st sched).urls (regRun href st sched).pB) := by
  induction sched with
  | nil => intro st h; exact h
  | cons w ws ih =>
    intro st h
    exact ih (regStep href st w) (regStep_inv href st w h)

/-- C3 amended: under any interleaving of two workers registering the same
    URL string, the uniqueness constraint keeps the frontier at no more than
    one row for that string, and any caller that finishes without an error
    holds the id of that one committed row (so all error-free callers agree);
    but — as the counterexample shows — a losing insert surfaces an
    integrity error into the attempt's outcome instead of resolving to the
    winner's id. -/
theorem C3_register_amended (href : String) (sched : List Bool) (st0 : RegSt)
    (hc0 : regCount st0.urls href ≤ 1)
    (hA : RegPhaseOk href st0.urls st0.pA) (hB : RegPhaseOk href st0.urls st0.pB) :
    regCount (regRun href st0 sched).urls href ≤ 1 ∧
    (∀ i, (regRun href st0 sched).pA = .finished (.ok i) →
      (i, href) ∈ (regRun href st0 sched).urls) ∧
    (∀ i, (regRun href st0 sched).pB = .finished (.ok i) →
      (i, href) ∈ (regRun href st0 sched).urls) ∧
    (∀ i j, (regRun href st0 sched).pA = .finished (.ok i) →
      (regRun href st0 sched).pB = .finished (.ok j) → i = j) := by
  obtain ⟨hc, hpa, hpb⟩ := regRun_inv href sched st0 ⟨hc0, hA, hB⟩
  refine ⟨hc, ?_, ?_, ?_⟩
  · intro i hi
    rw [hi] at hpa
    exact hpa
  · intro i hi
    rw [hi] at hpb
    exact hpb
  · intro i j hi hj
    rw [hi] at hpa
    rw [hj] at hpb
    exact regCount_le_one_unique _ _ _ _ hc hpa hpb

/-- Witness for the amended C3: from the empty table, the sequential
    schedule keeps exactly one row and both workers finish with its id. -/
theorem C3_register_amended_witness :
    (regCount cRegSt0.urls "http://dup.test/x" ≤ 1) ∧
    regCount (regRun "http://dup.test/x" cRegSt0 [true, true, false, false]).urls
      "http://dup.test/x" ≤ 1 ∧
    (∀ i j, (regRun "http://dup.test/x" cRegSt0 [true, true, false, false]).pA
        = .finished (.ok i) →
      (regRun "http://dup.test/x" cRegSt0 [true, true, false, false]).pB
        = .finished (.ok j) → i = j) := by
  have h := C3_register_amended "http://dup.test/x" [true, true, false, false] cRegSt0
    (by decide) trivial trivial
  exact ⟨by decide, h.1, h.2.2.2⟩

theorem updTbl_same (t : Nat → RowData) (id : Nat) (v : RowData) :
    updTbl t id v id = v := by simp [updTbl]

theorem updTbl_other (t : Nat → RowData) (id : Nat) (v : RowData) (j : Nat)
    (h : j ≠ id) : updTbl t id v j = t j := by simp [updTbl, h]

theorem claimedIds_append (l1 l2 : List CEvent) :
    claimedIds (l1 ++ l2) = claimedIds l1 ++ claimedIds l2 := by
  simp [claimedIds]

theorem mem_claimedIds (evs : List CEvent) (id : Nat) :
    id ∈ claimedIds evs ↔ ∃ w, CEvent.claimed w id ∈ evs := by
  simp only [claimedIds, List.mem_filterMap]
  constructor
  · rintro ⟨e, hmem, he⟩
    cases e with
    | claimed w i =>
      simp only [Option.some.injEq] at he
      exact ⟨w, he ▸ hmem⟩
    | empty w => simp at he
  · rintro ⟨w, hmem⟩
    exact ⟨.claimed w id, hmem, rfl⟩

theorem claimInv_init (ids : List Nat) (t0 : Nat → RowData)
    (hwf : ∀ id, (t0 id).lockedBy = none ∧ (t0 id).owner = none) :
    ClaimInv ids t0 t0 [] := by
  refine ⟨fun _ _ => rfl, fun _ _ => rfl, ?_, ?_, ?_, ?_, ?_⟩
  · intro id hp
    exact Or.inl ⟨hp, (hwf id).2⟩
  · intro id hl
    exact absurd (hwf id).1 hl
  · intro v id id' hl
    rw [(hwf id).1] at hl
    simp at hl
  · intro w id h
    exact absurd h (List.not_mem_nil _)
  · simp [claimedIds]

theorem claimStepT_inv (ids : List Nat) (t0 t : Nat → RowData) (evs : List CEvent)
    (w clock : Nat) (hwf : ∀ id, (t0 id).lockedBy = none ∧ (t0 id).owner = none)
    (hinv : ClaimInv ids t0 t evs) :
    ClaimInv ids t0 (claimStepT ids t w clock).1
      (evs ++ (claimStepT ids t w clock).2.toList) := by
  cases hfl : ids.find? (fun id => (t id).lockedBy == some w) with
  | some id0 =>
    have hres1 : (claimStepT ids t w clock).1
        = updTbl t id0 { t id0 with status := .in_progress, owner := some w,
                                    lockedBy := none, lastAttempt := some clock } := by
      simp [claimStepT, hfl]
    have hres2 : (claimStepT ids t w clock).2 = some (.claimed w id0) := by
      simp [claimStepT, hfl]
    rw [hres1, hres2]
    have hid0mem : id0 ∈ ids := List.mem_of_find?_eq_some hfl
    have hb := List.find?_some hfl
    have hlw : (t id0).lockedBy = some w := eq_of_beq hb
    have hpend0 : (t id0).status = .pending :=
      (hinv.lockPend id0 (by rw [hlw]; simp)).1
    have ht0pend : (t0 id0).status = .pending := by
      by_contra hne
      have hfr := hinv.frozen id0 hne
      rw [hfr, (hwf id0).1] at hlw
      simp at hlw
    refine ⟨?_, ?_, ?_, ?_, ?_, ?_, ?_⟩
    · intro id hnot
      have hne : id ≠ id0 := fun h => hnot (h ▸ hid0mem)
      rw [updTbl_other _ _ _ _ hne]
      exact hinv.offIds id hnot
    · intro id hne
      have hneq : id ≠ id0 := by
        intro h
        rw [h] at hne
        exact hne ht0pend
      rw [updTbl_other _ _ _ _ hneq]
      exact hinv.frozen id hne
    · intro id hp
      by_cases hid : id = id0
      · subst hid
        rw [updTbl_same]
        exact Or.inr ⟨rfl, rfl, w, rfl, List.mem_append_right _ (by simp)⟩
      · rw [updTbl_other _ _ _ _ hid]
        rcases hinv.pend id hp with h | ⟨h1, h2, ww, h3, h4⟩
        · exact Or.inl h
        · exact Or.inr ⟨h1, h2, ww, h3, List.mem_append_left _ h4⟩
    · intro id hl
      by_cases hid : id = id0
      · subst hid
        rw [updTbl_same] at hl
        simp at hl
      · rw [updTbl_other _ _ _ _ hid] at hl ⊢
        exact hinv.lockPend id hl
    · intro v id id' h1 h2
      by_cases hid : id = id0
      · subst hid
        rw [updTbl_same] at h1
        simp at h1
      · by_cases hid' : id' = id0
        · subst hid'
          rw [updTbl_same] at h2
          simp at h2
        · rw [updTbl_other _ _ _ _ hid] at h1
          rw [updTbl_other _ _ _ _ hid'] at h2
          exact hinv.lockUniq v id id' h1 h2
    · intro w' id hmem
      rcases List.mem_append.mp hmem with hold | hnew
      · obtain ⟨hmemids, ht0p, hip, how⟩ := hinv.evSound w' id hold
        have hneq : id ≠ id0 := by
          intro h
          rw [h, hpend0] at hip
          simp at hip
        rw [updTbl_other _ _ _ _ hneq]
        exact ⟨hmemids, ht0p, hip, how⟩
      · simp only [Option.toList_some, List.mem_singleton] at hnew
        have hw : w' = w ∧ id = id0 := by
          cases hnew
          exact ⟨rfl, rfl⟩
        obtain ⟨rfl, rfl⟩ := hw
        rw [updTbl_same]
        exact ⟨hid0mem, ht0pend, rfl, rfl⟩
    · have hcl : claimedIds (evs ++ (some (CEvent.claimed w id0)).toList)
          = claimedIds evs ++ [id0] := by
        rw [claimedIds_append]
        rfl
      rw [hcl]
      have hnotin : id0 ∉ claimedIds evs := by
        intro hmem
        obtain ⟨w', hw'⟩ := (mem_claimedIds evs id0).mp hmem
        have hip := (hinv.evSound w' id0 hw').2.2.1
        rw [hpend0] at hip
        simp at hip
      rw [List.nodup_append]
      exact ⟨hinv.evNodup, List.nodup_singleton _, by
        intro x hx hx2
        simp at hx2
        subst hx2
        exact hnotin hx⟩
  | none =>
    cases hfc : ids.find? (fun id => claimableRow (t id)) with
    | some id0 =>
      have hres1 : (claimStepT ids t w clock).1
          = updTbl t id0 { t id0 with lockedBy := some w } := by
        simp [claimStepT, hfl, hfc]
      have hres2 : (claimStepT ids t w clock).2 = none := by
        simp [claimStepT, hfl, hfc]
      rw [hres1, hres2]
      simp only [Option.toList_none, List.append_nil]
      have hid0mem : id0 ∈ ids := List.mem_of_find?_eq_some hfc
      have hb := List.find?_some hfc
      have hcl : claimableRow (t id0) = true := hb
      have hst : (t id0).status = .pending := by
        have := (Bool.and_eq_true _ _).mp hcl
        exact eq_of_beq this.1
      have hlb : (t id0).lockedBy = none := by
        have := (Bool.and_eq_true _ _).mp hcl
        exact eq_of_beq this.2
      have ht0pend : (t0 id0).status = .pending := by
        by_contra hne
        have hfr := hinv.frozen id0 hne
        rw [hfr] at hst
        exact hne hst
      have hnolock : ∀ id ∈ ids, ¬(((t id).lockedBy == some w) = true) :=
        List.find?_eq_none.mp hfl
      refine ⟨?_, ?_, ?_, ?_, ?_, ?_, hinv.evNodup⟩
      · intro id hnot
        have hne : id ≠ id0 := fun h => hnot (h ▸ hid0mem)
        rw [updTbl_other _ _ _ _ hne]
        exact hinv.offIds id hnot
      · intro id hne
        have hneq : id ≠ id0 := by
          intro h
          rw [h] at hne
          exact hne ht0pend
        rw [updTbl_other _ _ _ _ hneq]
        exact hinv.frozen id hne
      · intro id hp
        by_cases hid : id = id0
        · subst hid
          rw [updTbl_same]
          rcases hinv.pend id ht0pend with ⟨hs, ho⟩ | ⟨hs, _, _⟩
          · exact Or.inl ⟨hst, ho⟩
          · rw [hst] at hs
            simp at hs
        · rw [updTbl_other _ _ _ _ hid]
          exact hinv.pend id hp
      · intro id hl
        by_cases hid : id = id0
        · subst hid
          rw [updTbl_same]
          exact ⟨hst, hid0mem⟩
        · rw [updTbl_other _ _ _ _ hid] at hl ⊢
          exact hinv.lockPend id hl
      · intro v id id' h1 h2
        by_cases hid : id = id0
        · by_cases hid' : id' = id0
          · rw [hid, hid']
          · subst hid
            rw [updTbl_same] at h1
            simp at h1
            subst h1
            rw [updTbl_other _ _ _ _ hid'] at h2
            have hmem' : id' ∈ ids := (hinv.lockPend id' (by rw [h2]; simp)).2
            exact absurd (by rw [h2]; simp) (hnolock id' hmem')
        · by_cases hid' : id' = id0
          · subst hid'
            rw [updTbl_same] at h2
            simp at h2
            subst h2
            rw [updTbl_other _ _ _ _ hid] at h1
            have hmem' : id ∈ ids := (hinv.lockPend id (by rw [h1]; simp)).2
            exact absurd (by rw [h1]; simp) (hnolock id hmem')
          · rw [updTbl_other _ _ _ _ hid] at h1
            rw [updTbl_other _ _ _ _ hid'] at h2
            exact hinv.lockUniq v id id' h1 h2
      · intro w' id hmem
        obtain ⟨hmemids, ht0p, hip, how⟩ := hinv.evSound w' id hmem
        have hneq : id ≠ id0 := by
          intro h
          rw [h, hst] at hip
          simp at hip
        rw [updTbl_other _ _ _ _ hneq]
        exact ⟨hmemids, ht0p, hip, how⟩
    | none =>
      have hres1 : (claimStepT ids t w clock).1 = t := by
        simp [claimStepT, hfl, hfc]
      have hres2 : (claimStepT ids t w clock).2 = some (.empty w) := by
        simp [claimStepT, hfl, hfc]
      rw [hres1, hres2]
      have hclsame : claimedIds (evs ++ (some (CEvent.empty w)).toList)
          = claimedIds evs := by
        rw [claimedIds_append]
        simp [claimedIds]
      refine ⟨hinv.offIds, hinv.frozen, ?_, hinv.lockPend, hinv.lockUniq, ?_, ?_⟩
      · intro id hp
        rcases hinv.pend id hp with h | ⟨h1, h2, ww, h3, h4⟩
        · exact Or.inl h
        · exact Or.inr ⟨h1, h2, ww, h3, List.mem_append_left _ h4⟩
      · intro w' id hmem
        rcases List.mem_append.mp hmem with hold | hnew
        · exact hinv.evSound w' id hold
        · simp at hnew
      · rw [hclsame]
        exact hinv.evNodup

theorem claimRun_inv (ids : List Nat) (t0 : Nat → RowData)
    (hwf : ∀ id, (t0 id).lockedBy = none ∧ (t0 id).owner = none) :
    ∀ (sched : List Nat) (t : Nat → RowData) (evs : List CEvent) (clock : Nat),
      ClaimInv ids t0 t evs →
      ClaimInv ids t0 (claimRun ids t clock sched).1
        (evs ++ (claimRun ids t clock sched).2) := by
  intro sched
  induction sched with
  | nil =>
    intro t evs clock h
    simpa [claimRun] using h
  | cons w ws ih =>
    intro t evs clock h
    have hstep := claimStepT_inv ids t0 t evs w clock hwf h
    have hrest := ih (claimStepT ids t w clock).1
      (evs ++ (claimStepT ids t w clock).2.toList) (clock + 1) hstep
    simpa [claimRun, List.append_assoc] using hrest

/-- C2: over any interleaving of any number of workers against any table
    whose rows start unlocked and unowned, the claim protocol returns no row
    twice, returns only rows that were pending, leaves every returned row
    `in_progress` and owned by the worker it was returned to (so at most one
    worker ever holds it), and loses no row: an initially pending row is
    either still pending and unowned, or was returned to exactly one
    worker. -/
theorem C2_claim_protocol (ids : List Nat) (t0 : Nat → RowData) (sched : List Nat)
    (hwf : ∀ id, (t0 id).lockedBy = none ∧ (t0 id).owner = none) :
    (claimedIds (claimRun ids t0 0 sched).2).Nodup ∧
    (∀ w id, CEvent.claimed w id ∈ (claimRun ids t0 0 sched).2 →
      id ∈ ids ∧ (t0 id).status = .pending ∧
      ((claimRun ids t0 0 sched).1 id).status = .in_progress ∧
      ((claimRun ids t0 0 sched).1 id).owner = some w) ∧
    (∀ w w' id, CEvent.claimed w id ∈ (claimRun ids t0 0 sched).2 →
      CEvent.claimed w' id ∈ (claimRun ids t0 0 sched).2 → w = w') ∧
    (∀ id, (t0 id).status = .pending →
      (((claimRun ids t0 0 sched).1 id).status = .pending ∧
        ((claimRun ids t0 0 sched).1 id).owner = none) ∨
      (∃ w, CEvent.claimed w id ∈ (claimRun ids t0 0 sched).2 ∧
        ((claimRun ids t0 0 sched).1 id).owner = some w ∧
        ((claimRun ids t0 0 sched).1 id).status = .in_progress)) := by
  have hinv := claimRun_inv ids t0 hwf sched t0 [] 0 (claimInv_init ids t0 hwf)
  rw [List.nil_append] at hinv
  refine ⟨hinv.evNodup, ?_, ?_, ?_⟩
  · intro w id h
    exact hinv.evSound w id h
  · intro w w' id h1 h2
    have o1 := (hinv.evSound w id h1).2.2.2
    have o2 := (hinv.evSound w' id h2).2.2.2
    rw [o1] at o2
    exact Option.some.inj o2
  · intro id hp
    rcases hinv.pend id hp with ⟨h1, h2⟩ | ⟨h1, h2, w, h3, h4⟩
    · exact Or.inl ⟨h1, h2⟩
    · exact Or.inr ⟨w, h4, h3, h1⟩

/-- Witness for C2: two workers (5 and 7) interleave against rows 1 and 2;
    worker 7's select skips the row worker 5 holds locked, each row is
    claimed exactly once, and the trace is duplicate-free. -/
theorem C2_claim_protocol_witness :
    (∀ id, (cT0 id).lockedBy = none ∧ (cT0 id).owner = none) ∧
    (claimedIds (claimRun [1, 2] cT0 0 [5, 7, 5, 7]).2).Nodup ∧
    (claimRun [1, 2] cT0 0 [5, 7, 5, 7]).2
      = [CEvent.claimed 5 1, CEvent.claimed 7 2] := by
  have h := C2_claim_protocol [1, 2] cT0 [5, 7, 5, 7] (fun _ => ⟨rfl, rfl⟩)
  exact ⟨fun _ => ⟨rfl, rfl⟩, h.1, by decide⟩
